import Mathlib

/-!
Shallow embedding of the component-orchestration layer (`src/src/example.ts`):
`ComponentEngine`, `ComponentContext`, `EndpointContext`, and the frame
protocol carried over a shared Node `EventEmitter` with channels `'event'`,
`'api-call'` and `'api-result'`.

Modelling choices, each justified by the source:
* All frame payloads / endpoint params are an opaque type parameter `V`
  (TypeScript `any`); the core never inspects them.
* `uuid()` correlation ids are modelled as fresh naturals drawn from a
  counter (`nextId`); the spec treats the generator as an opaque source of
  ids unique among pending calls.
* The emitter's three channels hold, respectively, the contexts'
  `rootEventHandler`s, the contexts' `rootApiHandler`s, and the per-call
  result listeners.  In the source every `'api-result'` listener is
  registered with `.once`, whose Node semantics remove the listener the
  first time the channel is emitted, before the listener body runs, and
  `emit` iterates over a snapshot of the listener array; both facts are
  reflected below in `emitApiResult`.
* Promise settlement of a `call` is observed through `settleLog`, which
  records every `resolve` / `reject` the code performs on the call's
  executor, so "settled exactly once" is a property of the code, not of
  the model.
* An async endpooint handler is a `HandlerSpec`: it either resolves with a
  value computed from its `EndpointContext`, rejects, or never settles;
  its `.then` continuation (building and emitting the result frame) and
  its `.catch` continuation (logging) are microtasks in the `tasks` queue.
* Time: `now` advances by explicit `tick` steps; `setTimeout` arms a timer
  with expiry `now + timeout`, and a timer may fire only once its expiry
  has been reached.
-/

/-- `EventFrame` from the source: `{component, event, value}`. -/
structure EventFrame (V : Type) where
  component : String
  event : String
  value : V
deriving DecidableEq

/-- `ApiCallFrame` from the source: `{component, id, endpoint, params}`. -/
structure ApiCallFrame (V : Type) where
  component : String
  id : Nat
  endpoint : String
  params : V
deriving DecidableEq

/-- `ApiResultFrame` from the source: `{component, id, value}`. -/
structure ApiResultFrame (V : Type) where
  component : String
  id : Nat
  value : V
deriving DecidableEq

/-- `EndpointContext` from the source: immutable wrapper of the params. -/
structure EndpointContext (V : Type) where
  params : V
deriving DecidableEq

/-- Behaviour of an async endpoint handler `(ctx: EndpointContext) => Promise<any>`:
resolve with a value computed from the request, reject, or never settle. -/
inductive HandlerSpec (V : Type) where
  | resolves (f : EndpointContext V → V)
  | rejects
  | never

/-- One entry of `ComponentContext.apis`: `{endpoint, handler}`. -/
structure ApiEntry (V : Type) where
  endpoint : String
  handler : HandlerSpec V

/-- One entry of `ComponentContext.eventHandlers`; the listener function is
identified by a numeric token (function identity in the source). -/
structure EventHandlerEntry where
  component : String
  event : String
  listener : Nat
deriving DecidableEq

/-- Param metadata of `EndpointInfo`; `test` / `validator` are advisory only
and never read by the core. -/
structure ParamInfo (V : Type) where
  name : String
  test : Option (V → Bool)

/-- `EndpointInfo` from the source: `{name, params}`. -/
structure EndpointInfo (V : Type) where
  name : String
  params : List (ParamInfo V)

/-- Mutable state of one `ComponentContext` object. -/
structure ContextState (V : Type) where
  name : String
  eventHandlers : List EventHandlerEntry
  apis : List (ApiEntry V)

/-- A settlement performed on a pending call's promise executor. -/
inductive SettleEvent (V : Type) where
  | resolved (v : V)
  | rejectedTimeout
deriving DecidableEq

/-- Closure state of one invocation of `call`: the captured correlation id
and the log of settlements performed on its promise. -/
structure PendingCall (V : Type) where
  corrId : Nat
  settleLog : List (SettleEvent V)
deriving DecidableEq

/-- How a component's async `start` entry point settles (component bodies
are external collaborators; the engine only sees the returned promise). -/
inductive StartBehavior where
  | ok
  | fails
deriving DecidableEq

/-- A registered component: `{name, start}`. -/
structure ComponentSim where
  name : String
  startB : StartBehavior
deriving DecidableEq

/-- One `ComponentEntry` of the engine: the context built for the component
and the deferred `() => component.start(ctx)`. -/
structure EngineEntry where
  ctxId : Nat
  startB : StartBehavior
deriving DecidableEq

/-- A queued microtask: the `.then` continuation of a completed handler
(which builds and emits the result frame), or the `.catch` logging one. -/
inductive MicroTask (V : Type) where
  | emitResult (component : String) (id : Nat) (value : V)
  | logError
deriving DecidableEq

/-- The whole system: the one engine, its `EventEmitter` channels, every
context ever constructed, and the event-loop bookkeeping (time, timers,
microtasks) plus observation logs. -/
structure World (V : Type) where
  now : Nat
  nextId : Nat
  entries : List (String × EngineEntry)
  emEvent : List Nat
  emApiCall : List Nat
  emApiResult : List Nat
  contexts : List (Nat × ContextState V)
  pendingCalls : List (Nat × PendingCall V)
  timers : List (Nat × Nat)
  tasks : List (MicroTask V)
  invocations : List (Nat × V)
  resultLog : List (ApiResultFrame V)
  startedLog : List Nat
  errors : Nat

/-- The empty world: fresh engine, nothing registered. -/
def World.init (V : Type) : World V :=
  { now := 0, nextId := 0, entries := [], emEvent := [], emApiCall := [],
    emApiResult := [], contexts := [], pendingCalls := [], timers := [],
    tasks := [], invocations := [], resultLog := [], startedLog := [],
    errors := 0 }

/-- First-match association lookup (JS object / closure capture). -/
def assocFind {β : Type} (k : Nat) : List (Nat × β) → Option β
  | [] => none
  | (k', v) :: rest => if k' = k then some v else assocFind k rest

/-- Update the first entry with key `k` in place. -/
def assocUpdate {β : Type} (k : Nat) (f : β → β) : List (Nat × β) → List (Nat × β)
  | [] => []
  | (k', v) :: rest =>
      if k' = k then (k', f v) :: rest else (k', v) :: assocUpdate k f rest

/-- Remove the first entry with key `k` (cancelling a timer handle). -/
def assocRemove {β : Type} (k : Nat) : List (Nat × β) → List (Nat × β)
  | [] => []
  | (k', v) :: rest =>
      if k' = k then rest else (k', v) :: assocRemove k rest

/-- Remove the first occurrence of `k` (`EventEmitter.removeListener`
removes at most one registration of the given listener). -/
def removeFirstNat (k : Nat) : List Nat → List Nat
  | [] => []
  | x :: rest => if x = k then rest else x :: removeFirstNat k rest

/-- JS object property assignment `record[k] = v`: overwrite in place when
the key exists (keeping its position), append otherwise. -/
def recordSet {β : Type} (k : String) (v : β) : List (String × β) → List (String × β)
  | [] => [(k, v)]
  | (k', v') :: rest =>
      if k' = k then (k, v) :: rest else (k', v') :: recordSet k v rest

/-- `this.apis.find(item => item.endpoint == name)`. -/
def findApi {V : Type} (name : String) : List (ApiEntry V) → Option (ApiEntry V)
  | [] => none
  | a :: rest => if a.endpoint = name then some a else findApi name rest

/-- Remove the first `ApiEntry` named `name` (`findIndex` + `splice(i, 1)`). -/
def removeApi {V : Type} (name : String) : List (ApiEntry V) → List (ApiEntry V)
  | [] => []
  | a :: rest => if a.endpoint = name then rest else a :: removeApi name rest

/-- `getListenerIndex(...) != -1`: is the exact (component, event, listener)
triple registered? -/
def hasListenerEntry (c ev : String) (lid : Nat) : List EventHandlerEntry → Bool
  | [] => false
  | e :: rest =>
      if e.component = c ∧ e.event = ev ∧ e.listener = lid then true
      else hasListenerEntry c ev lid rest

/-- `findIndex` + `splice(index, 1)`: remove the first matching triple. -/
def removeListenerEntry (c ev : String) (lid : Nat) :
    List EventHandlerEntry → List EventHandlerEntry
  | [] => []
  | e :: rest =>
      if e.component = c ∧ e.event = ev ∧ e.listener = lid then rest
      else e :: removeListenerEntry c ev lid rest

/-- Body of a context's `rootEventHandler`: filter this context's
`eventHandlers` by (source component, event) and invoke each matching
listener with the payload, in registration order.  A listener invocation
is recorded in the `invocations` log. -/
def runEventListener {V : Type} (st : World V) (ctxId : Nat) (frame : EventFrame V) : World V :=
  match assocFind ctxId st.contexts with
  | none => st
  | some ctx =>
      let matching := ctx.eventHandlers.filter fun item =>
        decide (item.component = frame.component ∧ item.event = frame.event)
      { st with invocations :=
          st.invocations ++ matching.map fun item => (item.listener, frame.value) }

/-- The microtasks that a context's `rootApiHandler` schedules for an
incoming call frame: nothing if the frame targets another component or the
endpoint is not registered here; otherwise the handler's `.then`
continuation (emit the result frame) or `.catch` continuation (log). -/
def apiCallTasks {V : Type} (st : World V) (ctxId : Nat) (frame : ApiCallFrame V) :
    List (MicroTask V) :=
  match assocFind ctxId st.contexts with
  | none => []
  | some ctx =>
      if frame.component ≠ ctx.name then []
      else
        match findApi frame.endpoint ctx.apis with
        | none => []
        | some api =>
            match api.handler with
            | HandlerSpec.resolves f =>
                [MicroTask.emitResult ctx.name frame.id (f (EndpointContext.mk frame.params))]
            | HandlerSpec.rejects => [MicroTask.logError]
            | HandlerSpec.never => []

/-- Body of a context's `rootApiHandler` (handler invocation runs now; its
continuation is queued). -/
def runApiCallListener {V : Type} (st : World V) (ctxId : Nat) (frame : ApiCallFrame V) : World V :=
  { st with tasks := st.tasks ++ apiCallTasks st ctxId frame }

/-- Body of one pending call's `'api-result'` listener: ignore frames whose
correlation id differs from the captured one; on match, `clearTimeout` the
pending timer and `resolve` the promise with the frame's value. -/
def runResultListener {V : Type} (st : World V) (callId : Nat) (frame : ApiResultFrame V) : World V :=
  match assocFind callId st.pendingCalls with
  | none => st
  | some pc =>
      if frame.id ≠ pc.corrId then st
      else
        { st with
            timers := assocRemove callId st.timers,
            pendingCalls := assocUpdate callId
              (fun p => { p with settleLog := p.settleLog ++ [SettleEvent.resolved frame.value] })
              st.pendingCalls }

/-- `emit('event', frame)`: every `rootEventHandler` registered at emit
time runs, in registration order. -/
def emitEvent {V : Type} (st : World V) (frame : EventFrame V) : World V :=
  st.emEvent.foldl (fun s ctxId => runEventListener s ctxId frame) st

/-- `emit('api-call', frame)`: every `rootApiHandler` registered at emit
time runs, in registration order. -/
def emitApiCall {V : Type} (st : World V) (frame : ApiCallFrame V) : World V :=
  st.emApiCall.foldl (fun s ctxId => runApiCallListener s ctxId frame) st

/-- `emit('api-result', frame)`.  Every `'api-result'` listener was
registered through `.once`, so Node removes each one the moment it is
invoked — before its body runs and regardless of what the body does; the
emit itself iterates over a snapshot of the listener array.  Hence: the
channel's listener list is cleared, and every listener of the snapshot is
then run on the frame.  The emitted frame is recorded in `resultLog`. -/
def emitApiResult {V : Type} (st : World V) (frame : ApiResultFrame V) : World V :=
  let snapshot := st.emApiResult
  let st1 := { st with emApiResult := [], resultLog := st.resultLog ++ [frame] }
  snapshot.foldl (fun s callId => runResultListener s callId frame) st1

/-- `new ComponentContext(engine, name)`: empty listener/api lists, and the
two root handlers are subscribed to `'event'` and `'api-call'`. -/
def newContext {V : Type} (st : World V) (name : String) : World V × Nat :=
  let ctxId := st.nextId
  ({ st with
      nextId := st.nextId + 1,
      contexts := st.contexts ++ [(ctxId, { name := name, eventHandlers := [], apis := [] })],
      emEvent := st.emEvent ++ [ctxId],
      emApiCall := st.emApiCall ++ [ctxId] }, ctxId)

/-- `ComponentContext.addListener`: no-op when the identical triple is
already present, otherwise push. -/
def ComponentContext.addListener {V : Type} (st : World V) (ctxId : Nat)
    (component event : String) (lid : Nat) : World V :=
  { st with
      contexts := assocUpdate ctxId
        (fun ctx =>
          if hasListenerEntry component event lid ctx.eventHandlers then ctx
          else { ctx with eventHandlers := ctx.eventHandlers ++ [⟨component, event, lid⟩] })
        st.contexts }

/-- `ComponentContext.removeListener`: remove the first matching triple,
no-op when absent. -/
def ComponentContext.removeListener {V : Type} (st : World V) (ctxId : Nat)
    (component event : String) (lid : Nat) : World V :=
  { st with
      contexts := assocUpdate ctxId
        (fun ctx => { ctx with
          eventHandlers := removeListenerEntry component event lid ctx.eventHandlers })
        st.contexts }

/-- `ComponentContext.send`: broadcast an event frame stamped with this
context's component name. -/
def ComponentContext.send {V : Type} (st : World V) (ctxId : Nat)
    (event : String) (value : V) : World V :=
  match assocFind ctxId st.contexts with
  | none => st
  | some ctx => emitEvent st { component := ctx.name, event := event, value := value }

/-- `ComponentContext.addEndpoint`: throw `'endpoint name is already used.'`
when the name is taken, otherwise push the registration.  (`ctxId` always
denotes an existing context in the source, where this is a method.) -/
def ComponentContext.addEndpoint {V : Type} (st : World V) (ctxId : Nat)
    (info : EndpointInfo V) (handler : HandlerSpec V) : Except String (World V) :=
  match assocFind ctxId st.contexts with
  | none => Except.ok st
  | some ctx =>
      match findApi info.name ctx.apis with
      | some _ => Except.error "endpoint name is already used."
      | none =>
          Except.ok { st with
            contexts := assocUpdate ctxId
              (fun c => { c with apis := c.apis ++ [{ endpoint := info.name, handler := handler }] })
              st.contexts }

/-- `addEndpoint` as seen by a caller that lets the exception escape: the
world is unchanged when the registration throws. -/
def ComponentContext.addEndpointOr {V : Type} (st : World V) (ctxId : Nat)
    (info : EndpointInfo V) (handler : HandlerSpec V) : World V :=
  match ComponentContext.addEndpoint st ctxId info handler with
  | Except.ok st' => st'
  | Except.error _ => st

/-- `ComponentContext.removeEndpoint`: throw `'endpoint is not found.'`
when absent, else splice out the first match. -/
def ComponentContext.removeEndpoint {V : Type} (st : World V) (ctxId : Nat)
    (name : String) : Except String (World V) :=
  match assocFind ctxId st.contexts with
  | none => Except.ok st
  | some ctx =>
      match findApi name ctx.apis with
      | none => Except.error "endpoint is not found."
      | some _ =>
          Except.ok { st with
            contexts := assocUpdate ctxId
              (fun c => { c with apis := removeApi name c.apis }) st.contexts }

/-- `ComponentContext.call(component, endpoint, params, timeout)`:
generate a fresh id, register the result listener with `.once`, arm the
timeout timer, then emit the call frame.  Returns the id of the pending
call.  (The method reads only `this.engine.event`, so it needs no context
id.)  Defaults `params ?? {}` / `timeout ?? 1000` are resolved by the
caller. -/
def ComponentContext.call {V : Type} (st : World V) (component endpoint : String)
    (params : V) (timeout : Nat) : World V × Nat :=
  let callId := st.nextId
  let st1 := { st with
      nextId := st.nextId + 1,
      pendingCalls := st.pendingCalls ++ [(callId, { corrId := callId, settleLog := [] })],
      emApiResult := st.emApiResult ++ [callId],
      timers := st.timers ++ [(callId, st.now + timeout)] }
  (emitApiCall st1 { component := component, id := callId, endpoint := endpoint, params := params },
   callId)

/-- `ComponentContext.dispose`: unsubscribe this context's two root
handlers; nothing else (the endpoint list is *not* cleared). -/
def ComponentContext.dispose {V : Type} (st : World V) (ctxId : Nat) : World V :=
  { st with
      emEvent := removeFirstNat ctxId st.emEvent,
      emApiCall := removeFirstNat ctxId st.emApiCall }

/-- `ComponentEngine.use` / `registerEntry`: build a context for the
component and store `{ctx, start}` under the component's name — plain
object assignment, overwriting any previous entry of the same name. -/
def ComponentEngine.use {V : Type} (st : World V) (c : ComponentSim) : World V :=
  let p := newContext st c.name
  { p.1 with entries := recordSet c.name { ctxId := p.2, startB := c.startB } p.1.entries }

/-- `ComponentEngine.start`: invoke every stored entry's deferred start
(fire-and-forget); a rejected start promise is swallowed by the attached
`.catch`, which only logs.  Each launched entry is recorded by its
context id. -/
def ComponentEngine.start {V : Type} (st : World V) : World V :=
  st.entries.foldl
    (fun s e =>
      let s1 := { s with startedLog := s.startedLog ++ [e.2.ctxId] }
      match e.2.startB with
      | StartBehavior.ok => s1
      | StartBehavior.fails => { s1 with errors := s1.errors + 1 })
    st

/-- The `setTimeout` callback of a pending call, runnable once `now` has
reached the timer's expiry: remove the (already-once) result listener and
`reject` the promise with the timeout error. -/
def fireTimer {V : Type} (st : World V) (callId : Nat) : World V :=
  match assocFind callId st.timers with
  | none => st
  | some expiry =>
      if st.now < expiry then st
      else
        { st with
            timers := assocRemove callId st.timers,
            emApiResult := removeFirstNat callId st.emApiResult,
            pendingCalls := assocUpdate callId
              (fun p => { p with settleLog := p.settleLog ++ [SettleEvent.rejectedTimeout] })
              st.pendingCalls }

/-- Pop and run the first queued microtask. -/
def runMicroTask {V : Type} (st : World V) : World V :=
  match st.tasks with
  | [] => st
  | MicroTask.emitResult comp id v :: rest =>
      emitApiResult { st with tasks := rest } { component := comp, id := id, value := v }
  | MicroTask.logError :: rest => { st with tasks := rest, errors := st.errors + 1 }

/-- One event-loop step: time passing, a microtask running, a timer
firing, or a frame being emitted on one of the three channels. -/
inductive Step (V : Type) where
  | tick
  | runTask
  | fireTimer (callId : Nat)
  | deliverResult (frame : ApiResultFrame V)
  | deliverCall (frame : ApiCallFrame V)
  | deliverEvent (frame : EventFrame V)

/-- Execute one step. -/
def stepRun {V : Type} (st : World V) : Step V → World V
  | Step.tick => { st with now := st.now + 1 }
  | Step.runTask => runMicroTask st
  | Step.fireTimer c => fireTimer st c
  | Step.deliverResult f => emitApiResult st f
  | Step.deliverCall f => emitApiCall st f
  | Step.deliverEvent f => emitEvent st f

/-- Execute a schedule of steps. -/
def runSteps {V : Type} (st : World V) : List (Step V) → World V
  | [] => st
  | s :: rest => runSteps (stepRun st s) rest

/-- The settlements performed so far on pending call `c`'s promise. -/
def getLog {V : Type} (st : World V) (c : Nat) : List (SettleEvent V) :=
  match assocFind c st.pendingCalls with
  | none => []
  | some pc => pc.settleLog

/-! ### Basic lemmas about the association-list and listener-list helpers -/

theorem assocFind_update_ne {β : Type} (c k : Nat) (f : β → β) (l : List (Nat × β))
    (h : c ≠ k) : assocFind c (assocUpdate k f l) = assocFind c l := by
  induction l with
  | nil => rfl
  | cons hd tl ih =>
      obtain ⟨k', v⟩ := hd
      by_cases hk : k' = k
      · subst hk
        simp [assocUpdate, assocFind, Ne.symm h]
      · simp [assocUpdate, assocFind, hk]
        by_cases hc : k' = c <;> simp [hc, ih]

theorem assocFind_update_self {β : Type} (c : Nat) (f : β → β) (l : List (Nat × β)) :
    assocFind c (assocUpdate c f l) = (assocFind c l).map f := by
  induction l with
  | nil => rfl
  | cons hd tl ih =>
      obtain ⟨k', v⟩ := hd
      by_cases hk : k' = c <;> simp [assocUpdate, assocFind, hk, ih]

theorem assocFind_remove_ne {β : Type} (c k : Nat) (l : List (Nat × β)) (h : c ≠ k) :
    assocFind c (assocRemove k l) = assocFind c l := by
  induction l with
  | nil => rfl
  | cons hd tl ih =>
      obtain ⟨k', v⟩ := hd
      by_cases hk : k' = k
      · subst hk
        simp [assocRemove, assocFind, Ne.symm h]
      · simp [assocRemove, assocFind, hk]
        by_cases hc : k' = c <;> simp [hc, ih]


/-- Number of entries of an association list carrying key `k`. -/
def keyCount {β : Type} (k : Nat) : List (Nat × β) → Nat
  | [] => 0
  | (k', _) :: rest => (if k' = k then 1 else 0) + keyCount k rest

/-- Number of occurrences of `k` in a listener list. -/
def natCount (k : Nat) : List Nat → Nat
  | [] => 0
  | x :: rest => (if x = k then 1 else 0) + natCount k rest

theorem keyCount_assocRemove_le {β : Type} (c k : Nat) (l : List (Nat × β)) :
    keyCount c (assocRemove k l) ≤ keyCount c l := by
  induction l with
  | nil => simp [assocRemove]
  | cons hd tl ih =>
      obtain ⟨k', v⟩ := hd
      by_cases hk : k' = k
      · simp only [assocRemove, if_pos hk, keyCount]
        omega
      · simp only [assocRemove, if_neg hk, keyCount]
        omega

theorem keyCount_assocRemove_ne {β : Type} (c k : Nat) (l : List (Nat × β)) (h : c ≠ k) :
    keyCount c (assocRemove k l) = keyCount c l := by
  induction l with
  | nil => rfl
  | cons hd tl ih =>
      obtain ⟨k', v⟩ := hd
      by_cases hk : k' = k
      · have hkc : ¬ k' = c := fun hc => h (by rw [← hc, hk])
        simp only [assocRemove, if_pos hk, keyCount, if_neg hkc]
        omega
      · simp only [assocRemove, if_neg hk, keyCount, ih]

theorem keyCount_assocUpdate {β : Type} (c k : Nat) (f : β → β) (l : List (Nat × β)) :
    keyCount c (assocUpdate k f l) = keyCount c l := by
  induction l with
  | nil => rfl
  | cons hd tl ih =>
      obtain ⟨k', v⟩ := hd
      by_cases hk : k' = k
      · simp only [assocUpdate, if_pos hk, keyCount]
      · simp only [assocUpdate, if_neg hk, keyCount, ih]

theorem assocFind_eq_none_of_keyCount_zero {β : Type} (c : Nat) (l : List (Nat × β))
    (h : keyCount c l = 0) : assocFind c l = none := by
  induction l with
  | nil => rfl
  | cons hd tl ih =>
      obtain ⟨k', v⟩ := hd
      by_cases hk : k' = c
      · simp only [keyCount, if_pos hk] at h
        omega
      · simp only [keyCount, if_neg hk] at h
        simp only [assocFind, if_neg hk]
        exact ih (by omega)

theorem assocFind_remove_self {β : Type} (c : Nat) (l : List (Nat × β))
    (h : keyCount c l ≤ 1) : assocFind c (assocRemove c l) = none := by
  induction l with
  | nil => rfl
  | cons hd tl ih =>
      obtain ⟨k', v⟩ := hd
      by_cases hk : k' = c
      · simp only [keyCount, if_pos hk] at h
        simp only [assocRemove, if_pos hk]
        exact assocFind_eq_none_of_keyCount_zero _ _ (by omega)
      · simp only [assocRemove, if_neg hk, assocFind]
        refine ih ?_
        simp only [keyCount, if_neg hk] at h
        omega

theorem natCount_removeFirstNat_le (c k : Nat) (l : List Nat) :
    natCount c (removeFirstNat k l) ≤ natCount c l := by
  induction l with
  | nil => simp [removeFirstNat]
  | cons hd tl ih =>
      by_cases hk : hd = k
      · simp only [removeFirstNat, if_pos hk, natCount]
        omega
      · simp only [removeFirstNat, if_neg hk, natCount]
        omega

theorem natCount_removeFirstNat_ne (c k : Nat) (l : List Nat) (h : c ≠ k) :
    natCount c (removeFirstNat k l) = natCount c l := by
  induction l with
  | nil => rfl
  | cons hd tl ih =>
      by_cases hk : hd = k
      · have hkc : ¬ hd = c := fun hc => h (by rw [← hc, hk])
        simp only [removeFirstNat, if_pos hk, natCount, if_neg hkc]
        omega
      · simp only [removeFirstNat, if_neg hk, natCount, ih]

theorem not_mem_of_natCount_zero (c : Nat) (l : List Nat) (h : natCount c l = 0) :
    c ∉ l := by
  induction l with
  | nil => simp
  | cons hd tl ih =>
      by_cases hk : hd = c
      · simp only [natCount, if_pos hk] at h
        omega
      · simp only [natCount, if_neg hk] at h
        intro hmem
        rcases List.mem_cons.mp hmem with h1 | h1
        · exact hk h1.symm
        · exact ih (by omega) h1

theorem natCount_pos_of_mem (c : Nat) (l : List Nat) (h : c ∈ l) : 0 < natCount c l := by
  induction l with
  | nil => simp at h
  | cons hd tl ih =>
      by_cases hk : hd = c
      · simp only [natCount, if_pos hk]
        omega
      · rcases List.mem_cons.mp h with h1 | h1
        · exact absurd h1.symm hk
        · simp only [natCount, if_neg hk]
          have := ih h1
          omega

theorem not_mem_removeFirstNat_self (c : Nat) (l : List Nat) (h : natCount c l ≤ 1) :
    c ∉ removeFirstNat c l := by
  induction l with
  | nil => simp [removeFirstNat]
  | cons hd tl ih =>
      by_cases hk : hd = c
      · simp only [removeFirstNat, if_pos hk]
        simp only [natCount, if_pos hk] at h
        exact not_mem_of_natCount_zero _ _ (by omega)
      · simp only [removeFirstNat, if_neg hk]
        intro hmem
        rcases List.mem_cons.mp hmem with h1 | h1
        · exact hk h1.symm
        · simp only [natCount, if_neg hk] at h
          exact ih (by omega) h1

theorem not_mem_removeFirstNat (c k : Nat) (l : List Nat) (h : c ∉ l) :
    c ∉ removeFirstNat k l := by
  induction l with
  | nil => simp [removeFirstNat]
  | cons hd tl ih =>
      have h1 : c ≠ hd := fun hc => h (by simp [hc])
      have h2 : c ∉ tl := fun hc => h (by simp [hc])
      by_cases hk : hd = k
      · simp only [removeFirstNat, if_pos hk]
        exact h2
      · simp only [removeFirstNat, if_neg hk]
        intro hmem
        rcases List.mem_cons.mp hmem with h3 | h3
        · exact h1 h3
        · exact ih h2 h3

theorem assocFind_mem {β : Type} (k : Nat) (l : List (Nat × β)) (v : β)
    (h : assocFind k l = some v) : (k, v) ∈ l := by
  induction l with
  | nil => simp [assocFind] at h
  | cons hd tl ih =>
      obtain ⟨k', v'⟩ := hd
      by_cases hk : k' = k
      · subst hk
        simp [assocFind] at h
        simp [h]
      · simp only [assocFind, if_neg hk] at h
        simp [ih h]

theorem assocFind_append_fresh {β : Type} (c : Nat) (l : List (Nat × β)) (v : β)
    (h : assocFind c l = none) : assocFind c (l ++ [(c, v)]) = some v := by
  induction l with
  | nil => simp [assocFind]
  | cons hd tl ih =>
      obtain ⟨k', v'⟩ := hd
      by_cases hk : k' = c
      · simp [assocFind, hk] at h
      · simp only [List.cons_append, assocFind, if_neg hk] at h ⊢
        exact ih h

theorem keyCount_append_single {β : Type} (c : Nat) (l : List (Nat × β)) (e : β) :
    keyCount c (l ++ [(c, e)]) = keyCount c l + 1 := by
  induction l with
  | nil => simp [keyCount]
  | cons hd tl ih =>
      obtain ⟨k', v⟩ := hd
      simp only [List.cons_append, keyCount, List.append_eq]
      rw [ih]
      omega

theorem natCount_append_single (c : Nat) (l : List Nat) :
    natCount c (l ++ [c]) = natCount c l + 1 := by
  induction l with
  | nil => simp [natCount]
  | cons hd tl ih =>
      simp only [List.cons_append, natCount, List.append_eq]
      rw [ih]
      omega

theorem keyCount_zero_of_forall_lt {β : Type} (c : Nat) (l : List (Nat × β))
    (h : ∀ k ∈ l, k.1 < c) : keyCount c l = 0 := by
  induction l with
  | nil => rfl
  | cons hd tl ih =>
      obtain ⟨k', v⟩ := hd
      have h1 : k' < c := h (k', v) (by simp)
      have h2 : ¬ k' = c := by omega
      simp only [keyCount, if_neg h2]
      have h3 := ih fun k hk => h k (by simp [hk])
      omega

theorem natCount_zero_of_forall_lt (c : Nat) (l : List Nat)
    (h : ∀ k ∈ l, k < c) : natCount c l = 0 := by
  induction l with
  | nil => rfl
  | cons hd tl ih =>
      have h1 : hd < c := h hd (by simp)
      have h2 : ¬ hd = c := by omega
      simp only [natCount, if_neg h2]
      have h3 := ih fun k hk => h k (by simp [hk])
      omega

/-! ### Structure extensionality -/

theorem World.ext' {V : Type} {a b : World V}
    (h1 : a.now = b.now) (h2 : a.nextId = b.nextId) (h3 : a.entries = b.entries)
    (h4 : a.emEvent = b.emEvent) (h5 : a.emApiCall = b.emApiCall)
    (h6 : a.emApiResult = b.emApiResult) (h7 : a.contexts = b.contexts)
    (h8 : a.pendingCalls = b.pendingCalls) (h9 : a.timers = b.timers)
    (h10 : a.tasks = b.tasks) (h11 : a.invocations = b.invocations)
    (h12 : a.resultLog = b.resultLog) (h13 : a.startedLog = b.startedLog)
    (h14 : a.errors = b.errors) : a = b := by
  cases a
  cases b
  simp_all

/-! ### Claim scenarios and theorems (functional correctness) -/

/-- A `users` context owning endpoint `getUser` with handler `f`, plus a
`notes` context, both registered on one engine's channel (as in the spec's
happy-path scenario). -/
def happyWorld (V : Type) (f : EndpointContext V → V) : World V :=
  (newContext
    (ComponentContext.addEndpointOr (newContext (World.init V) "users").1 0
      ⟨"getUser", []⟩ (HandlerSpec.resolves f))
    "notes").1

/-- C2: for every handler `f`, params `p` and timeout `T`, a call to a
registered endpoint whose handler resolves within the timeout resolves the
caller's promise with exactly the handler's value `f ⟨p⟩`, unmodified; the
pending timer is cancelled on the way (so the timeout can no longer fire),
and a later firing attempt of the call's timer leaves the settled value
untouched. -/
theorem call_returns_handler_value {V : Type} (f : EndpointContext V → V) (p : V) (T : Nat) :
    getLog
      (runSteps (ComponentContext.call (happyWorld V f) "users" "getUser" p T).1 [Step.runTask])
      (ComponentContext.call (happyWorld V f) "users" "getUser" p T).2
      = [SettleEvent.resolved (f ⟨p⟩)] ∧
    (runSteps (ComponentContext.call (happyWorld V f) "users" "getUser" p T).1
      [Step.runTask]).timers = [] ∧
    getLog
      (runSteps (ComponentContext.call (happyWorld V f) "users" "getUser" p T).1
        [Step.runTask, Step.fireTimer (ComponentContext.call (happyWorld V f) "users" "getUser" p T).2])
      (ComponentContext.call (happyWorld V f) "users" "getUser" p T).2
      = [SettleEvent.resolved (f ⟨p⟩)] :=
  ⟨rfl, rfl, rfl⟩

/-- A `svc` context owning an `echo` endpoint, plus a `client` context. -/
def svcWorld (V : Type) : World V :=
  (newContext
    (ComponentContext.addEndpointOr (newContext (World.init V) "svc").1 0
      ⟨"echo", []⟩ (HandlerSpec.resolves fun ec => ec.params))
    "client").1

/-- Pending call A (id 2) against `svc.echo`, timeout 5. -/
def callA (V : Type) (pA : V) : World V × Nat :=
  ComponentContext.call (svcWorld V) "svc" "echo" pA 5

/-- Pending call B (id 3), issued while A is still pending. -/
def callB (V : Type) (pA pB : V) : World V × Nat :=
  ComponentContext.call (callA V pA).1 "svc" "echo" pB 5

set_option maxHeartbeats 2000000 in
/-- C1 (refuting the claim as stated): with calls A and B concurrently
pending with distinct correlation ids, delivering A's result frame resolves
A — but, because the result listener is registered with `.once`, B's
listener is also consumed by that non-matching frame (`emApiResult = []`
afterwards).  B's own matching result frame then arrives well within B's
timeout (`now = 0 < 5`) and resolves nothing, and B is finally rejected
with the timeout error.  B's pending call is *not* left intact. -/
theorem resultFrame_strips_other_call_listener {V : Type} (pA pB : V) :
    getLog (runSteps (callB V pA pB).1 [Step.runTask]) (callA V pA).2
      = [SettleEvent.resolved pA] ∧
    (runSteps (callB V pA pB).1 [Step.runTask]).emApiResult = [] ∧
    getLog (runSteps (callB V pA pB).1 [Step.runTask, Step.runTask]) (callB V pA pB).2 = [] ∧
    (runSteps (callB V pA pB).1 [Step.runTask, Step.runTask]).now = 0 ∧
    getLog
      (runSteps (callB V pA pB).1
        ([Step.runTask, Step.runTask] ++ List.replicate 5 Step.tick
          ++ [Step.fireTimer (callB V pA pB).2]))
      (callB V pA pB).2 = [SettleEvent.rejectedTimeout] :=
  ⟨rfl, rfl, rfl, rfl, rfl⟩

/-- Two contexts `a` (id 0) and `b` (id 1); `b` subscribes listener 7 to
`a`'s event `ev`, `a` sends `v1`, `b` unsubscribes, `a` sends `v2`. -/
def pubsubWorld (V : Type) (v1 v2 : V) : World V :=
  ComponentContext.send
    (ComponentContext.removeListener
      (ComponentContext.send
        (ComponentContext.addListener
          (newContext (newContext (World.init V) "a").1 "b").1
          1 "a" "ev" 7)
        0 "ev" v1)
      1 "a" "ev" 7)
    0 "ev" v2

/-- C7: in the sequence subscribe, send, unsubscribe, send, the listener is
invoked exactly once, with the payload of the first send. -/
theorem listener_fires_exactly_once {V : Type} (v1 v2 : V) :
    (pubsubWorld V v1 v2).invocations = [(7, v1)] :=
  rfl

/-- C6: registering an endpoint name that is already taken on the context
throws the duplicate-endpoint error; the context's endpoint list is
unchanged by the failed call, so the first handler is still the one found
under that name. -/
theorem addEndpoint_duplicate_error {V : Type} (st : World V) (i : Nat)
    (ctx : ContextState V) (info : EndpointInfo V) (h : HandlerSpec V) (a : ApiEntry V)
    (h1 : assocFind i st.contexts = some ctx) (h2 : findApi info.name ctx.apis = some a) :
    ComponentContext.addEndpoint st i info h = Except.error "endpoint name is already used." ∧
    ComponentContext.addEndpointOr st i info h = st ∧
    (∃ ctx', assocFind i (ComponentContext.addEndpointOr st i info h).contexts = some ctx' ∧
      findApi info.name ctx'.apis = some a) := by
  have he : ComponentContext.addEndpoint st i info h
      = Except.error "endpoint name is already used." := by
    simp [ComponentContext.addEndpoint, h1, h2]
  have ho : ComponentContext.addEndpointOr st i info h = st := by
    unfold ComponentContext.addEndpointOr
    rw [he]
  exact ⟨he, ho, ctx, by rw [ho]; exact h1, h2⟩

/-- Witness for C6: a `svc` context with endpoint `ep` registered; a second
registration under the same name fails with the duplicate error and the
first handler is still in place. -/
theorem addEndpoint_duplicate_error_witness :
    ComponentContext.addEndpoint
      (ComponentContext.addEndpointOr (newContext (World.init Nat) "svc").1 0
        ⟨"ep", []⟩ (HandlerSpec.resolves fun _ => 0))
      0 ⟨"ep", []⟩ HandlerSpec.rejects
      = Except.error "endpoint name is already used." ∧
    ComponentContext.addEndpointOr
      (ComponentContext.addEndpointOr (newContext (World.init Nat) "svc").1 0
        ⟨"ep", []⟩ (HandlerSpec.resolves fun _ => 0))
      0 ⟨"ep", []⟩ HandlerSpec.rejects
      = ComponentContext.addEndpointOr (newContext (World.init Nat) "svc").1 0
          ⟨"ep", []⟩ (HandlerSpec.resolves fun _ => 0) ∧
    (∃ ctx', assocFind 0
        (ComponentContext.addEndpointOr
          (ComponentContext.addEndpointOr (newContext (World.init Nat) "svc").1 0
            ⟨"ep", []⟩ (HandlerSpec.resolves fun _ => 0))
          0 ⟨"ep", []⟩ HandlerSpec.rejects).contexts = some ctx' ∧
      findApi "ep" ctx'.apis = some ⟨"ep", HandlerSpec.resolves fun _ => 0⟩) :=
  addEndpoint_duplicate_error _ 0 _ ⟨"ep", []⟩ HandlerSpec.rejects
    ⟨"ep", HandlerSpec.resolves fun _ => 0⟩ rfl rfl

/-- The engine's `start` fold, fully characterised: every stored entry's
deferred start is invoked (in stored order, regardless of whether any of
them fail), rejected entry points only bump the error log, and no other
part of the world changes. -/
theorem engineStart_fold {V : Type} (L : List (String × EngineEntry)) (s : World V) :
    (L.foldl
      (fun s e =>
        let s1 := { s with startedLog := s.startedLog ++ [e.2.ctxId] }
        match e.2.startB with
        | StartBehavior.ok => s1
        | StartBehavior.fails => { s1 with errors := s1.errors + 1 })
      s)
    = { s with
        startedLog := s.startedLog ++ L.map (fun e => e.2.ctxId),
        errors := s.errors
          + (L.filter (fun e => decide (e.2.startB = StartBehavior.fails))).length } := by
  induction L generalizing s with
  | nil =>
      refine World.ext' ?_ ?_ ?_ ?_ ?_ ?_ ?_ ?_ ?_ ?_ ?_ ?_ ?_ ?_ <;> simp
  | cons hd tl ih =>
      simp only [List.foldl_cons]
      cases hB : hd.2.startB
      · simp only [hB]
        rw [ih]
        refine World.ext' ?_ ?_ ?_ ?_ ?_ ?_ ?_ ?_ ?_ ?_ ?_ ?_ ?_ ?_ <;>
          simp [List.filter_cons, hB]
      · simp only [hB]
        rw [ih]
        refine World.ext' ?_ ?_ ?_ ?_ ?_ ?_ ?_ ?_ ?_ ?_ ?_ ?_ ?_ ?_ <;>
          simp [List.filter_cons, hB]
        omega

/-- C8: `start()` launches every stored deferred entry point (the launch
log gains exactly the stored entries, in order, whatever each entry's
start behaviour is), a rejecting entry point only increments the error
count — the rejection is caught, `start` itself returns normally and
changes nothing else, so no failure prevents or aborts any other
component's entry point. -/
theorem start_invokes_all_entries {V : Type} (st : World V) :
    ComponentEngine.start st
      = { st with
          startedLog := st.startedLog ++ st.entries.map (fun e => e.2.ctxId),
          errors := st.errors
            + (st.entries.filter (fun e => decide (e.2.startB = StartBehavior.fails))).length } :=
  engineStart_fold st.entries st

/-- C9: `dispose` removes exactly this context's two broadcast-channel
subscriptions — one registration disappears from the `'event'` channel and
one from the `'api-call'` channel, other contexts' registrations are
untouched — and nothing else changes; in particular the contexts (and so
this context's endpoint list) are left exactly as they were. -/
theorem dispose_removes_subscriptions_only {V : Type} (st : World V) (i j : Nat)
    (h1 : natCount i st.emEvent = 1) (h2 : natCount i st.emApiCall = 1) (hj : j ≠ i) :
    i ∉ (ComponentContext.dispose st i).emEvent ∧
    i ∉ (ComponentContext.dispose st i).emApiCall ∧
    natCount j (ComponentContext.dispose st i).emEvent = natCount j st.emEvent ∧
    natCount j (ComponentContext.dispose st i).emApiCall = natCount j st.emApiCall ∧
    (ComponentContext.dispose st i).contexts = st.contexts ∧
    (ComponentContext.dispose st i).pendingCalls = st.pendingCalls ∧
    (ComponentContext.dispose st i).timers = st.timers ∧
    (ComponentContext.dispose st i).tasks = st.tasks ∧
    (ComponentContext.dispose st i).entries = st.entries ∧
    (ComponentContext.dispose st i).emApiResult = st.emApiResult ∧
    (ComponentContext.dispose st i).invocations = st.invocations :=
  ⟨not_mem_removeFirstNat_self i st.emEvent (by omega),
   not_mem_removeFirstNat_self i st.emApiCall (by omega),
   natCount_removeFirstNat_ne j i st.emEvent hj,
   natCount_removeFirstNat_ne j i st.emApiCall hj,
   rfl, rfl, rfl, rfl, rfl, rfl, rfl⟩

/-- Witness for C9: two contexts `a` (id 0) and `b` (id 1); disposing
context 0 removes its two subscriptions, keeps context 1's, and leaves the
context table unchanged. -/
theorem dispose_removes_subscriptions_only_witness :
    0 ∉ (ComponentContext.dispose (newContext (newContext (World.init Nat) "a").1 "b").1 0).emEvent ∧
    0 ∉ (ComponentContext.dispose (newContext (newContext (World.init Nat) "a").1 "b").1 0).emApiCall ∧
    natCount 1 (ComponentContext.dispose (newContext (newContext (World.init Nat) "a").1 "b").1 0).emEvent
      = natCount 1 (newContext (newContext (World.init Nat) "a").1 "b").1.emEvent ∧
    natCount 1 (ComponentContext.dispose (newContext (newContext (World.init Nat) "a").1 "b").1 0).emApiCall
      = natCount 1 (newContext (newContext (World.init Nat) "a").1 "b").1.emApiCall ∧
    (ComponentContext.dispose (newContext (newContext (World.init Nat) "a").1 "b").1 0).contexts
      = (newContext (newContext (World.init Nat) "a").1 "b").1.contexts ∧
    (ComponentContext.dispose (newContext (newContext (World.init Nat) "a").1 "b").1 0).pendingCalls
      = (newContext (newContext (World.init Nat) "a").1 "b").1.pendingCalls ∧
    (ComponentContext.dispose (newContext (newContext (World.init Nat) "a").1 "b").1 0).timers
      = (newContext (newContext (World.init Nat) "a").1 "b").1.timers ∧
    (ComponentContext.dispose (newContext (newContext (World.init Nat) "a").1 "b").1 0).tasks
      = (newContext (newContext (World.init Nat) "a").1 "b").1.tasks ∧
    (ComponentContext.dispose (newContext (newContext (World.init Nat) "a").1 "b").1 0).entries
      = (newContext (newContext (World.init Nat) "a").1 "b").1.entries ∧
    (ComponentContext.dispose (newContext (newContext (World.init Nat) "a").1 "b").1 0).emApiResult
      = (newContext (newContext (World.init Nat) "a").1 "b").1.emApiResult ∧
    (ComponentContext.dispose (newContext (newContext (World.init Nat) "a").1 "b").1 0).invocations
      = (newContext (newContext (World.init Nat) "a").1 "b").1.invocations :=
  dispose_removes_subscriptions_only (newContext (newContext (World.init Nat) "a").1 "b").1
    0 1 (by decide) (by decide) (by decide)

/-- The engine after `use`-ing two components that share the name `dup`:
the first builds context 0, the second context 1. -/
def dupUseWorld (V : Type) : World V :=
  ComponentEngine.use
    (ComponentEngine.use (World.init V) ⟨"dup", StartBehavior.ok⟩)
    ⟨"dup", StartBehavior.fails⟩

/-- C10: registering two components with the same name overwrites the
stored engine entry (only the second component's entry point — context 1,
with its failing behaviour — is launched by `start`), yet the first
component's context is never disposed: both contexts' root handlers remain
subscribed on the `'api-call'` and `'event'` channels, and a later call
targeting `dup` is answered by an endpoint registered on the stale
context 0, resolving the caller with the stale handler's value. -/
theorem duplicate_use_keeps_stale_context_answering {V : Type} (v p : V) (T : Nat) :
    (dupUseWorld V).entries = [("dup", ⟨1, StartBehavior.fails⟩)] ∧
    (ComponentEngine.start (dupUseWorld V)).startedLog = [1] ∧
    (ComponentEngine.start (dupUseWorld V)).errors = 1 ∧
    (dupUseWorld V).emApiCall = [0, 1] ∧
    (dupUseWorld V).emEvent = [0, 1] ∧
    getLog
      (runSteps
        (ComponentContext.call
          (ComponentContext.addEndpointOr (dupUseWorld V) 0 ⟨"ep", []⟩
            (HandlerSpec.resolves fun _ => v))
          "dup" "ep" p T).1
        [Step.runTask])
      (ComponentContext.call
        (ComponentContext.addEndpointOr (dupUseWorld V) 0 ⟨"ep", []⟩
          (HandlerSpec.resolves fun _ => v))
        "dup" "ep" p T).2
      = [SettleEvent.resolved v] :=
  ⟨rfl, rfl, rfl, rfl, rfl, rfl⟩

/-! ### Frame-dispatch projection lemmas -/

/-- A result listener's body never touches the channel lists, the task
queue, the result log or the clock. -/
theorem runResultListener_frame_fields {V : Type} (s : World V) (k : Nat) (f : ApiResultFrame V) :
    (runResultListener s k f).emApiResult = s.emApiResult ∧
    (runResultListener s k f).tasks = s.tasks ∧
    (runResultListener s k f).resultLog = s.resultLog ∧
    (runResultListener s k f).now = s.now := by
  rcases hpc : assocFind k s.pendingCalls with _ | pc
  · simp [runResultListener, hpc]
  · by_cases h : f.id = pc.corrId <;> simp [runResultListener, hpc, h]

/-- A result listener's body for call `k` leaves every other call's log,
timer and pending-call record untouched. -/
theorem runResultListener_call_fields_ne {V : Type} (s : World V) (k : Nat)
    (f : ApiResultFrame V) (c : Nat) (hck : c ≠ k) :
    getLog (runResultListener s k f) c = getLog s c ∧
    assocFind c (runResultListener s k f).timers = assocFind c s.timers ∧
    keyCount c (runResultListener s k f).timers ≤ keyCount c s.timers ∧
    assocFind c (runResultListener s k f).pendingCalls = assocFind c s.pendingCalls := by
  rcases hpc : assocFind k s.pendingCalls with _ | pc
  · simp [runResultListener, hpc]
  · by_cases h : f.id = pc.corrId
    · refine ⟨?_, ?_, ?_, ?_⟩ <;>
        simp [runResultListener, hpc, h, getLog,
          assocFind_update_ne c k _ _ hck, assocFind_remove_ne c k _ hck,
          keyCount_assocRemove_le]
    · simp [runResultListener, hpc, h]

/-- Folding result-listener bodies over a snapshot that does not contain
call `c` leaves all of `c`'s state untouched, and never touches the
channel lists, tasks, result log or clock. -/
theorem foldResult_ne {V : Type} (f : ApiResultFrame V) (c : Nat) :
    ∀ (L : List Nat) (s : World V), c ∉ L →
      getLog (L.foldl (fun s k => runResultListener s k f) s) c = getLog s c ∧
      assocFind c (L.foldl (fun s k => runResultListener s k f) s).timers
        = assocFind c s.timers ∧
      keyCount c (L.foldl (fun s k => runResultListener s k f) s).timers
        ≤ keyCount c s.timers ∧
      assocFind c (L.foldl (fun s k => runResultListener s k f) s).pendingCalls
        = assocFind c s.pendingCalls ∧
      (L.foldl (fun s k => runResultListener s k f) s).emApiResult = s.emApiResult ∧
      (L.foldl (fun s k => runResultListener s k f) s).tasks = s.tasks ∧
      (L.foldl (fun s k => runResultListener s k f) s).resultLog = s.resultLog ∧
      (L.foldl (fun s k => runResultListener s k f) s).now = s.now
  | [], s, _ => ⟨rfl, rfl, le_refl _, rfl, rfl, rfl, rfl, rfl⟩
  | k :: L, s, h => by
      have hck : c ≠ k := fun hc => h (by simp [hc])
      have hL : c ∉ L := fun hc => h (by simp [hc])
      obtain ⟨a1, a2, a3, a4⟩ := runResultListener_call_fields_ne s k f c hck
      obtain ⟨b1, b2, b3, b4⟩ := runResultListener_frame_fields s k f
      obtain ⟨i1, i2, i3, i4, i5, i6, i7, i8⟩ := foldResult_ne f c L (runResultListener s k f) hL
      exact ⟨i1.trans a1, i2.trans a2, le_trans (i3.trans_eq rfl) a3, i4.trans a4,
        i5.trans b1, i6.trans b2, i7.trans b3, i8.trans b4⟩

/-- Folding result-listener bodies for a frame whose correlation id is not
`c` leaves call `c`'s state untouched even when `c`'s own listener is in
the snapshot: the listener's id guard rejects the frame. -/
theorem foldResult_nomatch {V : Type} (f : ApiResultFrame V) (c : Nat) (hf : f.id ≠ c) :
    ∀ (L : List Nat) (s : World V) (pc : PendingCall V),
      assocFind c s.pendingCalls = some pc → pc.corrId = c →
      getLog (L.foldl (fun s k => runResultListener s k f) s) c = getLog s c ∧
      assocFind c (L.foldl (fun s k => runResultListener s k f) s).timers
        = assocFind c s.timers ∧
      keyCount c (L.foldl (fun s k => runResultListener s k f) s).timers
        ≤ keyCount c s.timers ∧
      assocFind c (L.foldl (fun s k => runResultListener s k f) s).pendingCalls = some pc ∧
      (L.foldl (fun s k => runResultListener s k f) s).emApiResult = s.emApiResult ∧
      (L.foldl (fun s k => runResultListener s k f) s).tasks = s.tasks ∧
      (L.foldl (fun s k => runResultListener s k f) s).resultLog = s.resultLog ∧
      (L.foldl (fun s k => runResultListener s k f) s).now = s.now
  | [], s, pc, hpc, _ => ⟨rfl, rfl, le_refl _, hpc, rfl, rfl, rfl, rfl⟩
  | k :: L, s, pc, hpc, hcorr => by
      by_cases hck : k = c
      · have hskip : runResultListener s k f = s := by
          rw [hck]
          have hne : f.id ≠ pc.corrId := by rw [hcorr]; exact hf
          simp [runResultListener, hpc, hne]
        rw [List.foldl_cons, hskip]
        exact foldResult_nomatch f c hf L s pc hpc hcorr
      · have hck' : c ≠ k := fun hc => hck hc.symm
        obtain ⟨a1, a2, a3, a4⟩ := runResultListener_call_fields_ne s k f c hck'
        obtain ⟨b1, b2, b3, b4⟩ := runResultListener_frame_fields s k f
        obtain ⟨i1, i2, i3, i4, i5, i6, i7, i8⟩ :=
          foldResult_nomatch f c hf L (runResultListener s k f) pc (a4.trans hpc) hcorr
        exact ⟨i1.trans a1, i2.trans a2, le_trans i3 a3, i4,
          i5.trans b1, i6.trans b2, i7.trans b3, i8.trans b4⟩

/-- `emit('api-call', ...)` only appends microtasks. -/
theorem foldApiCall_changes_only_tasks {V : Type} (f : ApiCallFrame V) :
    ∀ (L : List Nat) (s : World V),
      ∃ ts, L.foldl (fun s i => runApiCallListener s i f) s = { s with tasks := ts }
  | [], s => ⟨s.tasks, rfl⟩
  | i :: L, s => by
      rw [List.foldl_cons]
      obtain ⟨ts, h⟩ := foldApiCall_changes_only_tasks f L (runApiCallListener s i f)
      exact ⟨ts, h⟩

/-- One event-listener body only appends invocations. -/
theorem runEventListener_only_invocations {V : Type} (s : World V) (i : Nat) (f : EventFrame V) :
    ∃ iv, runEventListener s i f = { s with invocations := iv } := by
  rcases hctx : assocFind i s.contexts with _ | ctx
  · exact ⟨s.invocations, by simp [runEventListener, hctx]⟩
  · exact ⟨s.invocations
      ++ (ctx.eventHandlers.filter fun item =>
            decide (item.component = f.component ∧ item.event = f.event)).map
          (fun item => (item.listener, f.value)),
      by simp [runEventListener, hctx]⟩

/-- `emit('event', ...)` only appends listener invocations. -/
theorem foldEvent_changes_only_invocations {V : Type} (f : EventFrame V) :
    ∀ (L : List Nat) (s : World V),
      ∃ iv, L.foldl (fun s i => runEventListener s i f) s = { s with invocations := iv }
  | [], s => ⟨s.invocations, rfl⟩
  | i :: L, s => by
      rw [List.foldl_cons]
      obtain ⟨iv0, he⟩ := runEventListener_only_invocations s i f
      obtain ⟨iv, h⟩ := foldEvent_changes_only_invocations f L (runEventListener s i f)
      refine ⟨iv, ?_⟩
      rw [h, he]

/-- A listener list containing `c` exactly once splits around that single
occurrence. -/
theorem mem_split_unique (c : Nat) :
    ∀ (L : List Nat), c ∈ L → natCount c L ≤ 1 →
      ∃ l1 l2, L = l1 ++ c :: l2 ∧ c ∉ l1 ∧ c ∉ l2
  | [], hm, _ => absurd hm (by simp)
  | hd :: tl, hm, hcount => by
      by_cases hhd : hd = c
      · refine ⟨[], tl, by simp [hhd], by simp, ?_⟩
        simp only [natCount, if_pos hhd] at hcount
        exact not_mem_of_natCount_zero c tl (by omega)
      · have hm' : c ∈ tl := by
          rcases List.mem_cons.mp hm with h1 | h1
          · exact absurd h1.symm hhd
          · exact h1
        have hcount' : natCount c tl ≤ 1 := by
          simp only [natCount, if_neg hhd] at hcount
          omega
        obtain ⟨l1, l2, heq, hn1, hn2⟩ := mem_split_unique c tl hm' hcount'
        refine ⟨hd :: l1, l2, by simp [heq], ?_, hn2⟩
        intro hc
        rcases List.mem_cons.mp hc with h1 | h1
        · exact hhd h1.symm
        · exact hn1 h1

/-! ### Schedule utilities -/

theorem runSteps_append {V : Type} (a b : List (Step V)) :
    ∀ (st : World V), runSteps st (a ++ b) = runSteps (runSteps st a) b := by
  induction a with
  | nil => intro st; rfl
  | cons s rest ih =>
      intro st
      simp only [List.cons_append, runSteps]
      exact ih (stepRun st s)

theorem runSteps_replicate_tick {V : Type} (n : Nat) :
    ∀ (st : World V), runSteps st (List.replicate n Step.tick) = { st with now := st.now + n } := by
  induction n with
  | zero =>
      intro st
      refine World.ext' ?_ ?_ ?_ ?_ ?_ ?_ ?_ ?_ ?_ ?_ ?_ ?_ ?_ ?_ <;> simp [runSteps]
  | succ n ih =>
      intro st
      simp only [List.replicate_succ, runSteps, stepRun]
      rw [ih]
      refine World.ext' ?_ ?_ ?_ ?_ ?_ ?_ ?_ ?_ ?_ ?_ ?_ ?_ ?_ ?_ <;> simp
      omega

/-! ### C5: exactly-once settlement of a pending call -/

/-- State invariant of one pending call `c`, as maintained by the code
under every event-loop step: either the call's timeout timer is still
armed and nothing has settled the promise yet, or the timer is gone, the
promise has been settled exactly once, and the call's result listener is
no longer registered.  The two counting conjuncts record that the call's
listener and timer are registered at most once. -/
def CallInv {V : Type} (c : Nat) (st : World V) : Prop :=
  (assocFind c st.pendingCalls).isSome ∧
  natCount c st.emApiResult ≤ 1 ∧
  keyCount c st.timers ≤ 1 ∧
  (((assocFind c st.timers).isSome ∧ getLog st c = []) ∨
   (assocFind c st.timers = none ∧ (getLog st c).length = 1 ∧ c ∉ st.emApiResult))

/-- The result listener of call `c`, on a frame matching its correlation
id: cancel the timer, resolve the promise. -/
theorem runResultListener_match {V : Type} (s : World V) (c : Nat) (f : ApiResultFrame V)
    (pc : PendingCall V) (hpc : assocFind c s.pendingCalls = some pc)
    (hid : f.id = pc.corrId) :
    runResultListener s c f
      = { s with
          timers := assocRemove c s.timers,
          pendingCalls := assocUpdate c
            (fun p => { p with settleLog := p.settleLog ++ [SettleEvent.resolved f.value] })
            s.pendingCalls } := by
  have h0 : runResultListener s c f
      = if f.id ≠ pc.corrId then s
        else { s with
               timers := assocRemove c s.timers,
               pendingCalls := assocUpdate c
                 (fun p => { p with settleLog := p.settleLog ++ [SettleEvent.resolved f.value] })
                 s.pendingCalls } := by
    unfold runResultListener
    rw [hpc]
  rw [h0, if_neg (by simp [hid])]

/-- The result listener of call `c`, on a frame whose correlation id does
not match: the frame is ignored. -/
theorem runResultListener_skip {V : Type} (s : World V) (c : Nat) (f : ApiResultFrame V)
    (pc : PendingCall V) (hpc : assocFind c s.pendingCalls = some pc)
    (hid : f.id ≠ pc.corrId) :
    runResultListener s c f = s := by
  have h0 : runResultListener s c f
      = if f.id ≠ pc.corrId then s
        else { s with
               timers := assocRemove c s.timers,
               pendingCalls := assocUpdate c
                 (fun p => { p with settleLog := p.settleLog ++ [SettleEvent.resolved f.value] })
                 s.pendingCalls } := by
    unfold runResultListener
    rw [hpc]
  rw [h0, if_pos hid]

theorem callInv_emitApiResult {V : Type} (st : World V) (c : Nat) (f : ApiResultFrame V)
    (h : CallInv c st) : CallInv c (emitApiResult st f) := by
  obtain ⟨h1, h2, h3, h4⟩ := h
  have hdef : emitApiResult st f
      = st.emApiResult.foldl (fun s k => runResultListener s k f)
          { st with emApiResult := [], resultLog := st.resultLog ++ [f] } := rfl
  by_cases hc : c ∈ st.emApiResult
  · rcases h4 with ⟨hsome, hlog⟩ | ⟨_, _, hmem⟩
    · obtain ⟨l1, l2, hsplit, hn1, hn2⟩ := mem_split_unique c st.emApiResult hc h2
      obtain ⟨i1, i2, i3, i4, i5, i6, i7, i8⟩ :=
        foldResult_ne f c l1 { st with emApiResult := [], resultLog := st.resultLog ++ [f] } hn1
      obtain ⟨pc, hpc⟩ := Option.isSome_iff_exists.mp h1
      rw [hdef, hsplit, List.foldl_append, List.foldl_cons]
      generalize hgen : l1.foldl (fun s k => runResultListener s k f)
          { st with emApiResult := [], resultLog := st.resultLog ++ [f] } = s1 at i1 i2 i3 i4 i5 i6 i7 i8
      have hpc1 : assocFind c s1.pendingCalls = some pc := by rw [i4]; exact hpc
      have hlogst : getLog st c = pc.settleLog := by simp [getLog, hpc]
      have hlog1 : pc.settleLog = [] := by rw [hlogst] at hlog; exact hlog
      by_cases hid : f.id = pc.corrId
      · rw [runResultListener_match s1 c f pc hpc1 hid]
        generalize hs2 : ({ s1 with
            timers := assocRemove c s1.timers,
            pendingCalls := assocUpdate c
              (fun p => { p with settleLog := p.settleLog ++ [SettleEvent.resolved f.value] })
              s1.pendingCalls } : World V) = s2
        obtain ⟨j1, j2, j3, j4, j5, j6, j7, j8⟩ := foldResult_ne f c l2 s2 hn2
        have k4 : assocFind c s2.pendingCalls
            = some { pc with settleLog := pc.settleLog ++ [SettleEvent.resolved f.value] } := by
          rw [← hs2]
          simp only [assocFind_update_self, hpc1]
          rfl
        have k2 : assocFind c s2.timers = none := by
          rw [← hs2]
          exact assocFind_remove_self c _ (le_trans i3 h3)
        have k3 : keyCount c s2.timers ≤ 1 := by
          rw [← hs2]
          exact le_trans (keyCount_assocRemove_le _ _ _) (le_trans i3 h3)
        have k5 : s2.emApiResult = [] := by rw [← hs2]; exact i5
        refine ⟨?_, ?_, ?_, Or.inr ⟨?_, ?_, ?_⟩⟩
        · rw [j4, k4]
          rfl
        · rw [j5, k5]
          simp [natCount]
        · exact le_trans j3 k3
        · rw [j2]
          exact k2
        · rw [j1]
          simp [getLog, k4, hlog1]
        · rw [j5, k5]
          simp
      · rw [runResultListener_skip s1 c f pc hpc1 hid]
        obtain ⟨j1, j2, j3, j4, j5, j6, j7, j8⟩ := foldResult_ne f c l2 s1 hn2
        refine ⟨?_, ?_, ?_, Or.inl ⟨?_, ?_⟩⟩
        · rw [j4, i4]
          exact h1
        · rw [j5, i5]
          simp [natCount]
        · exact le_trans j3 (i3.trans h3)
        · rw [j2, i2]
          exact hsome
        · rw [j1, i1]
          exact hlog
    · exact absurd hc hmem
  · obtain ⟨i1, i2, i3, i4, i5, i6, i7, i8⟩ :=
      foldResult_ne f c st.emApiResult
        { st with emApiResult := [], resultLog := st.resultLog ++ [f] } hc
    rw [hdef]
    refine ⟨?_, ?_, ?_, ?_⟩
    · rw [i4]
      exact h1
    · rw [i5]
      simp [natCount]
    · exact le_trans i3 h3
    · rcases h4 with ⟨hsome, hlog⟩ | ⟨hnone, hlen, _⟩
      · exact Or.inl ⟨by rw [i2]; exact hsome, by rw [i1]; exact hlog⟩
      · refine Or.inr ⟨by rw [i2]; exact hnone, by rw [i1]; exact hlen, ?_⟩
        rw [i5]
        simp

/-- `getLog` only depends on the call's pending-call record. -/
theorem getLog_eq_of_assocFind_eq {V : Type} (s s' : World V) (c : Nat)
    (h : assocFind c s'.pendingCalls = assocFind c s.pendingCalls) :
    getLog s' c = getLog s c := by
  simp [getLog, h]

theorem callInv_fireTimer {V : Type} (st : World V) (c k : Nat) (h : CallInv c st) :
    CallInv c (fireTimer st k) := by
  obtain ⟨h1, h2, h3, h4⟩ := h
  rcases ht : assocFind k st.timers with _ | e
  · have hid : fireTimer st k = st := by simp [fireTimer, ht]
    rw [hid]
    exact ⟨h1, h2, h3, h4⟩
  · by_cases hnow : st.now < e
    · have hid : fireTimer st k = st := by simp [fireTimer, ht, hnow]
      rw [hid]
      exact ⟨h1, h2, h3, h4⟩
    · have hfire : fireTimer st k = { st with
          timers := assocRemove k st.timers,
          emApiResult := removeFirstNat k st.emApiResult,
          pendingCalls := assocUpdate k
            (fun p => { p with settleLog := p.settleLog ++ [SettleEvent.rejectedTimeout] })
            st.pendingCalls } := by
        simp [fireTimer, ht, hnow]
      rw [hfire]
      by_cases hck : c = k
      · subst hck
        rcases h4 with ⟨hsome, hlog⟩ | ⟨hnone, _, _⟩
        · obtain ⟨pc, hpc⟩ := Option.isSome_iff_exists.mp h1
          have hlogpc : pc.settleLog = [] := by
            have hgl : getLog st c = pc.settleLog := by simp [getLog, hpc]
            rw [hgl] at hlog
            exact hlog
          refine ⟨?_, ?_, ?_, Or.inr ⟨?_, ?_, ?_⟩⟩
          · simp [assocFind_update_self, hpc]
          · exact le_trans (natCount_removeFirstNat_le _ _ _) h2
          · exact le_trans (keyCount_assocRemove_le _ _ _) h3
          · exact assocFind_remove_self c _ h3
          · simp [getLog, assocFind_update_self, hpc, hlogpc]
          · exact not_mem_removeFirstNat_self c _ h2
        · rw [hnone] at ht
          cases ht
      · have hgl : getLog { st with
            timers := assocRemove k st.timers,
            emApiResult := removeFirstNat k st.emApiResult,
            pendingCalls := assocUpdate k
              (fun p => { p with settleLog := p.settleLog ++ [SettleEvent.rejectedTimeout] })
              st.pendingCalls } c = getLog st c :=
          getLog_eq_of_assocFind_eq st _ c (assocFind_update_ne c k _ _ hck)
        refine ⟨?_, ?_, ?_, ?_⟩
        · simpa [assocFind_update_ne c k _ _ hck] using h1
        · simpa [natCount_removeFirstNat_ne c k _ hck] using h2
        · simpa [keyCount_assocRemove_ne c k _ hck] using h3
        · rcases h4 with ⟨hsome, hlog⟩ | ⟨hnone, hlen, hmem⟩
          · refine Or.inl ⟨?_, ?_⟩
            · simpa [assocFind_remove_ne c k _ hck] using hsome
            · rw [hgl]
              exact hlog
          · refine Or.inr ⟨?_, ?_, ?_⟩
            · simpa [assocFind_remove_ne c k _ hck] using hnone
            · rw [hgl]
              exact hlen
            · exact not_mem_removeFirstNat c k _ hmem

theorem callInv_stepRun {V : Type} (st : World V) (c : Nat) (s : Step V) (h : CallInv c st) :
    CallInv c (stepRun st s) := by
  cases s with
  | tick => exact h
  | runTask =>
      show CallInv c (runMicroTask st)
      rcases htasks : st.tasks with _ | ⟨t, rest⟩
      · have hid : runMicroTask st = st := by simp [runMicroTask, htasks]
        rw [hid]
        exact h
      · cases t with
        | emitResult comp id v =>
            have hid : runMicroTask st
                = emitApiResult { st with tasks := rest }
                    { component := comp, id := id, value := v } := by
              simp [runMicroTask, htasks]
            rw [hid]
            exact callInv_emitApiResult _ c _ h
        | logError =>
            have hid : runMicroTask st = { st with tasks := rest, errors := st.errors + 1 } := by
              simp [runMicroTask, htasks]
            rw [hid]
            exact h
  | fireTimer k => exact callInv_fireTimer st c k h
  | deliverResult fr => exact callInv_emitApiResult st c fr h
  | deliverCall fr =>
      show CallInv c (emitApiCall st fr)
      obtain ⟨ts, hts⟩ := foldApiCall_changes_only_tasks fr st.emApiCall st
      rw [show emitApiCall st fr = { st with tasks := ts } from hts]
      exact h
  | deliverEvent fr =>
      show CallInv c (emitEvent st fr)
      obtain ⟨iv, hiv⟩ := foldEvent_changes_only_invocations fr st.emEvent st
      rw [show emitEvent st fr = { st with invocations := iv } from hiv]
      exact h

theorem callInv_runSteps {V : Type} (c : Nat) (sched : List (Step V)) :
    ∀ st : World V, CallInv c st → CallInv c (runSteps st sched) := by
  induction sched with
  | nil => intro st h; exact h
  | cons s rest ih =>
      intro st h
      exact ih _ (callInv_stepRun st c s h)

/-- Every id already present in the world is below the id counter —
the uniqueness the code gets from `uuid()`. -/
def FreshWorld {V : Type} (st : World V) : Prop :=
  (∀ e ∈ st.pendingCalls, e.1 < st.nextId) ∧
  (∀ e ∈ st.timers, e.1 < st.nextId) ∧
  (∀ k ∈ st.emApiResult, k < st.nextId) ∧
  (∀ comp id v, MicroTask.emitResult comp id v ∈ st.tasks → id < st.nextId) ∧
  (∀ fr ∈ st.resultLog, fr.id < st.nextId)

theorem callInv_after_call {V : Type} (st : World V) (comp ep : String) (p : V) (T : Nat)
    (hF : FreshWorld st) :
    CallInv (ComponentContext.call st comp ep p T).2
      (ComponentContext.call st comp ep p T).1 := by
  obtain ⟨hP, hT, hR, _, _⟩ := hF
  have hfind0 : assocFind st.nextId st.pendingCalls = none :=
    assocFind_eq_none_of_keyCount_zero _ _ (keyCount_zero_of_forall_lt _ _ hP)
  have htim0 : assocFind st.nextId st.timers = none :=
    assocFind_eq_none_of_keyCount_zero _ _ (keyCount_zero_of_forall_lt _ _ hT)
  have hInv1 : CallInv st.nextId
      ({ st with
          nextId := st.nextId + 1,
          pendingCalls := st.pendingCalls
            ++ [(st.nextId, { corrId := st.nextId, settleLog := [] })],
          emApiResult := st.emApiResult ++ [st.nextId],
          timers := st.timers ++ [(st.nextId, st.now + T)] } : World V) := by
    refine ⟨?_, ?_, ?_, Or.inl ⟨?_, ?_⟩⟩
    · simp [assocFind_append_fresh _ _ _ hfind0]
    · have := natCount_append_single st.nextId st.emApiResult
      have hz := natCount_zero_of_forall_lt st.nextId st.emApiResult hR
      simp only []
      omega
    · have := keyCount_append_single st.nextId st.timers (st.now + T)
      have hz := keyCount_zero_of_forall_lt st.nextId st.timers hT
      simp only []
      omega
    · simp [assocFind_append_fresh _ _ _ htim0]
    · simp [getLog, assocFind_append_fresh _ _ _ hfind0]
  have hcall1 : (ComponentContext.call st comp ep p T).1
      = emitApiCall
          { st with
            nextId := st.nextId + 1,
            pendingCalls := st.pendingCalls
              ++ [(st.nextId, { corrId := st.nextId, settleLog := [] })],
            emApiResult := st.emApiResult ++ [st.nextId],
            timers := st.timers ++ [(st.nextId, st.now + T)] }
          { component := comp, id := st.nextId, endpoint := ep, params := p } := rfl
  have hcall2 : (ComponentContext.call st comp ep p T).2 = st.nextId := rfl
  rw [hcall1, hcall2]
  obtain ⟨ts, hts⟩ := foldApiCall_changes_only_tasks
    { component := comp, id := st.nextId, endpoint := ep, params := p } _
    ({ st with
        nextId := st.nextId + 1,
        pendingCalls := st.pendingCalls
          ++ [(st.nextId, { corrId := st.nextId, settleLog := [] })],
        emApiResult := st.emApiResult ++ [st.nextId],
        timers := st.timers ++ [(st.nextId, st.now + T)] } : World V)
  rw [show emitApiCall _ _ = _ from hts]
  exact hInv1

/-- The schedule that lets the call's timeout run its course: wait out the
armed timer (if any) and fire it. -/
def drainSched {V : Type} (st : World V) (c : Nat) : List (Step V) :=
  List.replicate ((assocFind c st.timers).getD 0) Step.tick ++ [Step.fireTimer c]

theorem callInv_drain {V : Type} (st : World V) (c : Nat) (h : CallInv c st) :
    (getLog (runSteps st (drainSched st c)) c).length = 1 := by
  obtain ⟨h1, h2, h3, h4⟩ := h
  rcases h4 with ⟨hsome, hlog⟩ | ⟨hnone, hlen, _⟩
  · obtain ⟨e, he⟩ := Option.isSome_iff_exists.mp hsome
    obtain ⟨pc, hpc⟩ := Option.isSome_iff_exists.mp h1
    have hlogpc : pc.settleLog = [] := by
      have hgl : getLog st c = pc.settleLog := by simp [getLog, hpc]
      rw [hgl] at hlog
      exact hlog
    rw [drainSched, he, runSteps_append, runSteps_replicate_tick]
    have hrun1 : runSteps ({ st with now := st.now + (some e).getD 0 } : World V)
        [Step.fireTimer c] = fireTimer { st with now := st.now + (some e).getD 0 } c := rfl
    rw [hrun1]
    have htim : assocFind c ({ st with now := st.now + (some e).getD 0 } : World V).timers
        = some e := he
    have hguard : ¬ ({ st with now := st.now + (some e).getD 0 } : World V).now < e := by
      simp only [Option.getD_some]
      omega
    have hfire : fireTimer ({ st with now := st.now + (some e).getD 0 } : World V) c
        = { st with
            now := st.now + (some e).getD 0,
            timers := assocRemove c st.timers,
            emApiResult := removeFirstNat c st.emApiResult,
            pendingCalls := assocUpdate c
              (fun p => { p with settleLog := p.settleLog ++ [SettleEvent.rejectedTimeout] })
              st.pendingCalls } := by
      simp [fireTimer, htim, hguard]
    rw [hfire]
    simp [getLog, assocFind_update_self, hpc, hlogpc]
  · rw [drainSched, hnone]
    have hrun : runSteps st (List.replicate ((none : Option Nat).getD 0) Step.tick
        ++ [Step.fireTimer c]) = fireTimer st c := rfl
    rw [hrun]
    have hf : fireTimer st c = st := by simp [fireTimer, hnone]
    rw [hf]
    exact hlen

/-- C5: every invocation of `call` yields a pending result slot that the
code settles exactly once under every interleaving of result-frame
deliveries, call/event broadcasts, microtask execution and timer firing:
after any schedule of steps the slot has been settled at most once, and
once the call's timeout has been allowed to run its course (fired if still
armed) the slot has been settled exactly once — resolved with a frame's
value or rejected with the timeout error, never both, never twice. -/
theorem call_settles_exactly_once {V : Type} (st : World V) (comp ep : String) (p : V)
    (T : Nat) (sched : List (Step V)) (hF : FreshWorld st) :
    (getLog (runSteps (ComponentContext.call st comp ep p T).1 sched)
       (ComponentContext.call st comp ep p T).2).length ≤ 1 ∧
    (getLog
       (runSteps (runSteps (ComponentContext.call st comp ep p T).1 sched)
         (drainSched (runSteps (ComponentContext.call st comp ep p T).1 sched)
           (ComponentContext.call st comp ep p T).2))
       (ComponentContext.call st comp ep p T).2).length = 1 := by
  have hInv := callInv_runSteps _ sched _ (callInv_after_call st comp ep p T hF)
  constructor
  · obtain ⟨_, _, _, h4⟩ := hInv
    rcases h4 with ⟨_, hlog⟩ | ⟨_, hlen, _⟩
    · rw [hlog]
      simp
    · omega
  · exact callInv_drain _ _ hInv

/-- Witness for C5 at a concrete world: one call from the empty world, an
empty schedule; draining the timeout settles the slot exactly once. -/
theorem call_settles_exactly_once_witness :
    (getLog (runSteps (ComponentContext.call (World.init Nat) "a" "b" 0 1).1 [])
       (ComponentContext.call (World.init Nat) "a" "b" 0 1).2).length ≤ 1 ∧
    (getLog
       (runSteps (runSteps (ComponentContext.call (World.init Nat) "a" "b" 0 1).1 [])
         (drainSched (runSteps (ComponentContext.call (World.init Nat) "a" "b" 0 1).1 [])
           (ComponentContext.call (World.init Nat) "a" "b" 0 1).2))
       (ComponentContext.call (World.init Nat) "a" "b" 0 1).2).length = 1 :=
  call_settles_exactly_once (World.init Nat) "a" "b" 0 1 []
    (by
      refine ⟨?_, ?_, ?_, ?_, ?_⟩
      · intro x hx
        simp [World.init] at hx
      · intro x hx
        simp [World.init] at hx
      · intro x hx
        simp [World.init] at hx
      · intro comp i v hmem
        simp [World.init] at hmem
      · intro x hx
        simp [World.init] at hx)

/-! ### C3 / C4: calls that can only time out -/

/-- A microtask that is not a result-frame emission for call `c`. -/
def TaskOK {V : Type} (c : Nat) (t : MicroTask V) : Prop :=
  ∀ comp i v, t = MicroTask.emitResult comp i v → i ≠ c

/-- Invariant of a pending call `c` that no responder will ever answer
(armed with expiry `e0`): the call's record carries its own correlation
id, no queued microtask and no frame ever broadcast carries `c`, and the
call is either still armed with an empty log or already rejected with the
timeout error — and the rejection can only have happened at or after the
expiry. -/
def TimeoutOnlyInv {V : Type} (c e0 : Nat) (st : World V) : Prop :=
  (∃ pc, assocFind c st.pendingCalls = some pc ∧ pc.corrId = c) ∧
  keyCount c st.timers ≤ 1 ∧
  (∀ t ∈ st.tasks, TaskOK c t) ∧
  (∀ fr ∈ st.resultLog, fr.id ≠ c) ∧
  ((assocFind c st.timers = some e0 ∧ getLog st c = []) ∨
   (assocFind c st.timers = none ∧ getLog st c = [SettleEvent.rejectedTimeout] ∧ e0 ≤ st.now))

/-- The event-loop steps available when nobody is broadcasting: time,
microtasks, timers. -/
def Benign {V : Type} (s : Step V) : Prop :=
  s = Step.tick ∨ s = Step.runTask ∨ ∃ k, s = Step.fireTimer k

theorem timeoutInv_emitApiResult {V : Type} (st : World V) (c e0 : Nat)
    (f : ApiResultFrame V) (hf : f.id ≠ c) (h : TimeoutOnlyInv c e0 st) :
    TimeoutOnlyInv c e0 (emitApiResult st f) := by
  obtain ⟨⟨pc, hpc, hcorr⟩, h2, h3, h4, h5⟩ := h
  have hdef : emitApiResult st f
      = st.emApiResult.foldl (fun s k => runResultListener s k f)
          { st with emApiResult := [], resultLog := st.resultLog ++ [f] } := rfl
  obtain ⟨i1, i2, i3, i4, i5, i6, i7, i8⟩ :=
    foldResult_nomatch f c hf st.emApiResult
      { st with emApiResult := [], resultLog := st.resultLog ++ [f] } pc hpc hcorr
  rw [hdef]
  refine ⟨⟨pc, i4, hcorr⟩, le_trans i3 h2, ?_, ?_, ?_⟩
  · intro t ht
    rw [i6] at ht
    exact h3 t ht
  · intro fr hfr
    rw [i7] at hfr
    rcases List.mem_append.mp hfr with h1 | h1
    · exact h4 fr h1
    · rw [List.mem_singleton.mp h1]
      exact hf
  · rcases h5 with ⟨ha, hb⟩ | ⟨ha, hb, hc⟩
    · exact Or.inl ⟨by rw [i2]; exact ha, by rw [i1]; exact hb⟩
    · refine Or.inr ⟨by rw [i2]; exact ha, by rw [i1]; exact hb, ?_⟩
      rw [i8]
      exact hc

theorem timeoutInv_fireTimer {V : Type} (st : World V) (c e0 k : Nat)
    (h : TimeoutOnlyInv c e0 st) : TimeoutOnlyInv c e0 (fireTimer st k) := by
  obtain ⟨⟨pc, hpc, hcorr⟩, h2, h3, h4, h5⟩ := h
  rcases ht : assocFind k st.timers with _ | e
  · have hid : fireTimer st k = st := by simp [fireTimer, ht]
    rw [hid]
    exact ⟨⟨pc, hpc, hcorr⟩, h2, h3, h4, h5⟩
  · by_cases hnow : st.now < e
    · have hid : fireTimer st k = st := by simp [fireTimer, ht, hnow]
      rw [hid]
      exact ⟨⟨pc, hpc, hcorr⟩, h2, h3, h4, h5⟩
    · have hfire : fireTimer st k = { st with
          timers := assocRemove k st.timers,
          emApiResult := removeFirstNat k st.emApiResult,
          pendingCalls := assocUpdate k
            (fun p => { p with settleLog := p.settleLog ++ [SettleEvent.rejectedTimeout] })
            st.pendingCalls } := by
        simp [fireTimer, ht, hnow]
      rw [hfire]
      by_cases hck : c = k
      · subst hck
        rcases h5 with ⟨ha, hb⟩ | ⟨ha, _, _⟩
        · have hlogpc : pc.settleLog = [] := by
            have hgl : getLog st c = pc.settleLog := by simp [getLog, hpc]
            rw [hgl] at hb
            exact hb
          have he0 : e = e0 := by
            rw [ht] at ha
            exact Option.some.inj ha
          refine ⟨⟨{ pc with settleLog := pc.settleLog ++ [SettleEvent.rejectedTimeout] }, ?_, ?_⟩,
            le_trans (keyCount_assocRemove_le _ _ _) h2, h3, h4,
            Or.inr ⟨?_, ?_, ?_⟩⟩
          · simp [assocFind_update_self, hpc]
          · exact hcorr
          · exact assocFind_remove_self c _ h2
          · simp [getLog, assocFind_update_self, hpc, hlogpc]
          · show e0 ≤ st.now
            omega
        · rw [ha] at ht
          cases ht
      · have hgl : getLog { st with
            timers := assocRemove k st.timers,
            emApiResult := removeFirstNat k st.emApiResult,
            pendingCalls := assocUpdate k
              (fun p => { p with settleLog := p.settleLog ++ [SettleEvent.rejectedTimeout] })
              st.pendingCalls } c = getLog st c :=
          getLog_eq_of_assocFind_eq st _ c (assocFind_update_ne c k _ _ hck)
        refine ⟨⟨pc, ?_, hcorr⟩, ?_, h3, h4, ?_⟩
        · simpa [assocFind_update_ne c k _ _ hck] using hpc
        · simpa [keyCount_assocRemove_ne c k _ hck] using h2
        · rcases h5 with ⟨ha, hb⟩ | ⟨ha, hb, hc⟩
          · exact Or.inl ⟨by simpa [assocFind_remove_ne c k _ hck] using ha,
              by rw [hgl]; exact hb⟩
          · exact Or.inr ⟨by simpa [assocFind_remove_ne c k _ hck] using ha,
              by rw [hgl]; exact hb, hc⟩

theorem timeoutInv_stepRun {V : Type} (st : World V) (c e0 : Nat) (s : Step V)
    (hB : Benign s) (h : TimeoutOnlyInv c e0 st) : TimeoutOnlyInv c e0 (stepRun st s) := by
  cases s with
  | tick =>
      obtain ⟨h1, h2, h3, h4, h5⟩ := h
      refine ⟨h1, h2, h3, h4, ?_⟩
      rcases h5 with ⟨ha, hb⟩ | ⟨ha, hb, hc⟩
      · exact Or.inl ⟨ha, hb⟩
      · refine Or.inr ⟨ha, hb, ?_⟩
        show e0 ≤ st.now + 1
        omega
  | runTask =>
      show TimeoutOnlyInv c e0 (runMicroTask st)
      rcases htasks : st.tasks with _ | ⟨t, rest⟩
      · have hid : runMicroTask st = st := by simp [runMicroTask, htasks]
        rw [hid]
        exact h
      · obtain ⟨h1, h2, h3, h4, h5⟩ := h
        have hrest : ∀ u ∈ rest, TaskOK c u := fun u hu => h3 u (by rw [htasks]; simp [hu])
        cases t with
        | emitResult comp i v =>
            have hid : runMicroTask st
                = emitApiResult { st with tasks := rest }
                    { component := comp, id := i, value := v } := by
              simp [runMicroTask, htasks]
            rw [hid]
            have hic : i ≠ c :=
              h3 (MicroTask.emitResult comp i v) (by rw [htasks]; simp) comp i v rfl
            exact timeoutInv_emitApiResult _ c e0 _ hic ⟨h1, h2, hrest, h4, h5⟩
        | logError =>
            have hid : runMicroTask st = { st with tasks := rest, errors := st.errors + 1 } := by
              simp [runMicroTask, htasks]
            rw [hid]
            exact ⟨h1, h2, hrest, h4, h5⟩
  | fireTimer k => exact timeoutInv_fireTimer st c e0 k h
  | deliverResult fr =>
      rcases hB with hb | hb | ⟨k, hb⟩ <;> cases hb
  | deliverCall fr =>
      rcases hB with hb | hb | ⟨k, hb⟩ <;> cases hb
  | deliverEvent fr =>
      rcases hB with hb | hb | ⟨k, hb⟩ <;> cases hb

theorem timeoutInv_runSteps {V : Type} (c e0 : Nat) (sched : List (Step V))
    (hB : ∀ s ∈ sched, Benign s) :
    ∀ st : World V, TimeoutOnlyInv c e0 st → TimeoutOnlyInv c e0 (runSteps st sched) := by
  induction sched with
  | nil => intro st h; exact h
  | cons s rest ih =>
      intro st h
      exact ih (fun u hu => hB u (by simp [hu])) _
        (timeoutInv_stepRun st c e0 s (hB s (by simp)) h)

/-- No context answers (target component, endpoint): either the name does
not match or the endpoint is not registered there. -/
def NoResponder {V : Type} (st : World V) (component endpoint : String) : Prop :=
  ∀ e ∈ st.contexts, e.2.name ≠ component ∨ findApi endpoint e.2.apis = none

/-- Every context matching the target name either lacks the endpoint or
holds a rejecting handler for it. -/
def RejectsOnly {V : Type} (st : World V) (component endpoint : String) : Prop :=
  ∀ e ∈ st.contexts, e.2.name = component →
    findApi endpoint e.2.apis = none ∨
    ∃ a, findApi endpoint e.2.apis = some a ∧ a.handler = HandlerSpec.rejects

theorem apiCallTasks_nil_of_noResponder {V : Type} (st : World V) (i : Nat)
    (frame : ApiCallFrame V) (h : NoResponder st frame.component frame.endpoint) :
    apiCallTasks st i frame = [] := by
  unfold apiCallTasks
  split
  · rfl
  next ctx heq =>
      by_cases hname : frame.component ≠ ctx.name
      · rw [if_pos hname]
      · rw [if_neg hname]
        have hmem := assocFind_mem i st.contexts ctx heq
        rcases h (i, ctx) hmem with h1 | h1
        · exact absurd (not_not.mp hname).symm h1
        · rw [h1]

theorem apiCallTasks_of_rejectsOnly {V : Type} (st : World V) (i : Nat)
    (frame : ApiCallFrame V) (h : RejectsOnly st frame.component frame.endpoint) :
    apiCallTasks st i frame = [] ∨ apiCallTasks st i frame = [MicroTask.logError] := by
  unfold apiCallTasks
  split
  · exact Or.inl rfl
  next ctx heq =>
      by_cases hname : frame.component ≠ ctx.name
      · rw [if_pos hname]
        exact Or.inl rfl
      · rw [if_neg hname]
        have hmem := assocFind_mem i st.contexts ctx heq
        rcases h (i, ctx) hmem (not_not.mp hname).symm with h1 | ⟨a, ha, hr⟩
        · rw [h1]
          exact Or.inl rfl
        · obtain ⟨aep, ah⟩ := a
          change ah = HandlerSpec.rejects at hr
          subst hr
          rw [ha]
          exact Or.inr rfl

/-- When no context schedules any microtask for the call frame, the
broadcast leaves the world untouched. -/
theorem foldApiCall_id {V : Type} (frame : ApiCallFrame V) :
    ∀ (L : List Nat) (s : World V),
      (∀ i, apiCallTasks s i frame = []) →
      L.foldl (fun s i => runApiCallListener s i frame) s = s
  | [], _, _ => rfl
  | i :: L, s, h => by
      rw [List.foldl_cons]
      have hb : runApiCallListener s i frame = s := by
        have h0 : runApiCallListener s i frame
            = { s with tasks := s.tasks ++ apiCallTasks s i frame } := rfl
        rw [h0, h i]
        refine World.ext' ?_ ?_ ?_ ?_ ?_ ?_ ?_ ?_ ?_ ?_ ?_ ?_ ?_ ?_ <;> simp
      rw [hb]
      exact foldApiCall_id frame L s h

/-- Tasks added by an `'api-call'` broadcast all come from some context's
`apiCallTasks`. -/
theorem foldApiCall_tasks_pred {V : Type} (frame : ApiCallFrame V) (P : MicroTask V → Prop) :
    ∀ (L : List Nat) (s : World V),
      (∀ t ∈ s.tasks, P t) →
      (∀ i t, t ∈ apiCallTasks s i frame → P t) →
      ∀ t ∈ (L.foldl (fun s i => runApiCallListener s i frame) s).tasks, P t
  | [], _, hs, _ => hs
  | i :: L, s, hs, hc => by
      rw [List.foldl_cons]
      refine foldApiCall_tasks_pred frame P L (runApiCallListener s i frame) ?_ ?_
      · intro t ht
        rcases List.mem_append.mp ht with h1 | h1
        · exact hs t h1
        · exact hc i t h1
      · intro j t ht
        exact hc j t ht

theorem timeoutInv_after_call_noResponder {V : Type} (st : World V) (comp ep : String)
    (p : V) (T : Nat) (hF : FreshWorld st) (hNR : NoResponder st comp ep) :
    TimeoutOnlyInv (ComponentContext.call st comp ep p T).2 (st.now + T)
      (ComponentContext.call st comp ep p T).1 := by
  obtain ⟨hP, hT, _, hTask, hRes⟩ := hF
  have hfind0 : assocFind st.nextId st.pendingCalls = none :=
    assocFind_eq_none_of_keyCount_zero _ _ (keyCount_zero_of_forall_lt _ _ hP)
  have htim0 : assocFind st.nextId st.timers = none :=
    assocFind_eq_none_of_keyCount_zero _ _ (keyCount_zero_of_forall_lt _ _ hT)
  have hcall1 : (ComponentContext.call st comp ep p T).1
      = emitApiCall
          { st with
            nextId := st.nextId + 1,
            pendingCalls := st.pendingCalls
              ++ [(st.nextId, { corrId := st.nextId, settleLog := [] })],
            emApiResult := st.emApiResult ++ [st.nextId],
            timers := st.timers ++ [(st.nextId, st.now + T)] }
          { component := comp, id := st.nextId, endpoint := ep, params := p } := rfl
  have hcall2 : (ComponentContext.call st comp ep p T).2 = st.nextId := rfl
  rw [hcall1, hcall2]
  have hnil : ∀ i, apiCallTasks
      ({ st with
          nextId := st.nextId + 1,
          pendingCalls := st.pendingCalls
            ++ [(st.nextId, { corrId := st.nextId, settleLog := [] })],
          emApiResult := st.emApiResult ++ [st.nextId],
          timers := st.timers ++ [(st.nextId, st.now + T)] } : World V) i
      { component := comp, id := st.nextId, endpoint := ep, params := p } = [] :=
    fun i => apiCallTasks_nil_of_noResponder _ i _ hNR
  rw [show emitApiCall _ _ = _ from foldApiCall_id _ _ _ hnil]
  refine ⟨⟨{ corrId := st.nextId, settleLog := [] }, ?_, rfl⟩, ?_, ?_, ?_, Or.inl ⟨?_, ?_⟩⟩
  · exact assocFind_append_fresh _ _ _ hfind0
  · have h1 := keyCount_append_single st.nextId st.timers (st.now + T)
    have hz := keyCount_zero_of_forall_lt st.nextId st.timers hT
    show keyCount st.nextId (st.timers ++ [(st.nextId, st.now + T)]) ≤ 1
    omega
  · intro t ht
    intro comp' i' v' heq
    have := hTask comp' i' v' (by rw [← heq]; exact ht)
    omega
  · intro fr hfr
    have := hRes fr hfr
    omega
  · exact assocFind_append_fresh _ _ _ htim0
  · simp [getLog, assocFind_append_fresh _ _ _ hfind0]

theorem timeoutInv_after_call_rejectsOnly {V : Type} (st : World V) (comp ep : String)
    (p : V) (T : Nat) (hF : FreshWorld st) (hRO : RejectsOnly st comp ep) :
    TimeoutOnlyInv (ComponentContext.call st comp ep p T).2 (st.now + T)
      (ComponentContext.call st comp ep p T).1 := by
  obtain ⟨hP, hT, _, hTask, hRes⟩ := hF
  have hfind0 : assocFind st.nextId st.pendingCalls = none :=
    assocFind_eq_none_of_keyCount_zero _ _ (keyCount_zero_of_forall_lt _ _ hP)
  have htim0 : assocFind st.nextId st.timers = none :=
    assocFind_eq_none_of_keyCount_zero _ _ (keyCount_zero_of_forall_lt _ _ hT)
  have hcall1 : (ComponentContext.call st comp ep p T).1
      = emitApiCall
          { st with
            nextId := st.nextId + 1,
            pendingCalls := st.pendingCalls
              ++ [(st.nextId, { corrId := st.nextId, settleLog := [] })],
            emApiResult := st.emApiResult ++ [st.nextId],
            timers := st.timers ++ [(st.nextId, st.now + T)] }
          { component := comp, id := st.nextId, endpoint := ep, params := p } := rfl
  have hcall2 : (ComponentContext.call st comp ep p T).2 = st.nextId := rfl
  rw [hcall1, hcall2]
  have htaskpred : ∀ t ∈ (emitApiCall
      { st with
        nextId := st.nextId + 1,
        pendingCalls := st.pendingCalls
          ++ [(st.nextId, { corrId := st.nextId, settleLog := [] })],
        emApiResult := st.emApiResult ++ [st.nextId],
        timers := st.timers ++ [(st.nextId, st.now + T)] }
      { component := comp, id := st.nextId, endpoint := ep, params := p }).tasks,
      TaskOK st.nextId t := by
    refine foldApiCall_tasks_pred _ (TaskOK st.nextId) _ _ ?_ ?_
    · intro t ht
      intro comp' i' v' heq
      have := hTask comp' i' v' (by rw [← heq]; exact ht)
      omega
    · intro i t ht
      rcases apiCallTasks_of_rejectsOnly
          ({ st with
              nextId := st.nextId + 1,
              pendingCalls := st.pendingCalls
                ++ [(st.nextId, { corrId := st.nextId, settleLog := [] })],
              emApiResult := st.emApiResult ++ [st.nextId],
              timers := st.timers ++ [(st.nextId, st.now + T)] } : World V) i
          { component := comp, id := st.nextId, endpoint := ep, params := p } hRO with h1 | h1
      · rw [h1] at ht
        simp at ht
      · rw [h1] at ht
        rw [List.mem_singleton.mp ht]
        intro comp' i' v' heq
        cases heq
  obtain ⟨ts, hts⟩ := foldApiCall_changes_only_tasks
    { component := comp, id := st.nextId, endpoint := ep, params := p } _
    ({ st with
        nextId := st.nextId + 1,
        pendingCalls := st.pendingCalls
          ++ [(st.nextId, { corrId := st.nextId, settleLog := [] })],
        emApiResult := st.emApiResult ++ [st.nextId],
        timers := st.timers ++ [(st.nextId, st.now + T)] } : World V)
  rw [show emitApiCall _ _ = _ from hts] at htaskpred ⊢
  refine ⟨⟨{ corrId := st.nextId, settleLog := [] }, ?_, rfl⟩, ?_, htaskpred, ?_, Or.inl ⟨?_, ?_⟩⟩
  · exact assocFind_append_fresh _ _ _ hfind0
  · have h1 := keyCount_append_single st.nextId st.timers (st.now + T)
    have hz := keyCount_zero_of_forall_lt st.nextId st.timers hT
    show keyCount st.nextId (st.timers ++ [(st.nextId, st.now + T)]) ≤ 1
    omega
  · intro fr hfr
    have := hRes fr hfr
    omega
  · exact assocFind_append_fresh _ _ _ htim0
  · simp [getLog, assocFind_append_fresh _ _ _ hfind0]

theorem timeoutInv_drain {V : Type} (st : World V) (c e0 : Nat)
    (h : TimeoutOnlyInv c e0 st) :
    getLog (runSteps st (drainSched st c)) c = [SettleEvent.rejectedTimeout] := by
  obtain ⟨⟨pc, hpc, _⟩, h2, _, _, h5⟩ := h
  rcases h5 with ⟨ha, hb⟩ | ⟨ha, hb, _⟩
  · have hlogpc : pc.settleLog = [] := by
      have hgl : getLog st c = pc.settleLog := by simp [getLog, hpc]
      rw [hgl] at hb
      exact hb
    rw [drainSched, ha, runSteps_append, runSteps_replicate_tick]
    have hrun1 : runSteps ({ st with now := st.now + (some e0).getD 0 } : World V)
        [Step.fireTimer c] = fireTimer { st with now := st.now + (some e0).getD 0 } c := rfl
    rw [hrun1]
    have htim : assocFind c ({ st with now := st.now + (some e0).getD 0 } : World V).timers
        = some e0 := ha
    have hguard : ¬ ({ st with now := st.now + (some e0).getD 0 } : World V).now < e0 := by
      simp only [Option.getD_some]
      omega
    have hfire : fireTimer ({ st with now := st.now + (some e0).getD 0 } : World V) c
        = { st with
            now := st.now + (some e0).getD 0,
            timers := assocRemove c st.timers,
            emApiResult := removeFirstNat c st.emApiResult,
            pendingCalls := assocUpdate c
              (fun p => { p with settleLog := p.settleLog ++ [SettleEvent.rejectedTimeout] })
              st.pendingCalls } := by
      simp [fireTimer, htim, hguard]
    rw [hfire]
    simp [getLog, assocFind_update_self, hpc, hlogpc]
  · rw [drainSched, ha]
    have hrun : runSteps st (List.replicate ((none : Option Nat).getD 0) Step.tick
        ++ [Step.fireTimer c]) = fireTimer st c := rfl
    rw [hrun]
    have hf : fireTimer st c = st := by simp [fireTimer, ha]
    rw [hf]
    exact hb

/-- C3: a call whose target component matches no context, or whose
endpoint is not registered on the matching context, is never settled
before the configured timeout expires (under any schedule of ticks,
microtasks and timer firings its log is empty, or carries exactly the
timeout rejection issued at a time at or past `now + T`), and once the
timeout is allowed to run its course the call is rejected with exactly the
timeout error — never an "endpoint not found" error. -/
theorem missing_target_times_out {V : Type} (st : World V) (comp ep : String) (p : V)
    (T : Nat) (sched : List (Step V)) (hF : FreshWorld st) (hNR : NoResponder st comp ep)
    (hB : ∀ s ∈ sched, Benign s) :
    (getLog (runSteps (ComponentContext.call st comp ep p T).1 sched)
       (ComponentContext.call st comp ep p T).2 = [] ∨
     (getLog (runSteps (ComponentContext.call st comp ep p T).1 sched)
        (ComponentContext.call st comp ep p T).2 = [SettleEvent.rejectedTimeout] ∧
      st.now + T ≤ (runSteps (ComponentContext.call st comp ep p T).1 sched).now)) ∧
    getLog
      (runSteps (runSteps (ComponentContext.call st comp ep p T).1 sched)
        (drainSched (runSteps (ComponentContext.call st comp ep p T).1 sched)
          (ComponentContext.call st comp ep p T).2))
      (ComponentContext.call st comp ep p T).2 = [SettleEvent.rejectedTimeout] := by
  have hInv := timeoutInv_runSteps _ _ sched hB _
    (timeoutInv_after_call_noResponder st comp ep p T hF hNR)
  constructor
  · obtain ⟨_, _, _, _, h5⟩ := hInv
    rcases h5 with ⟨_, hb⟩ | ⟨_, hb, hc⟩
    · exact Or.inl hb
    · exact Or.inr ⟨hb, hc⟩
  · exact timeoutInv_drain _ _ _ hInv

/-- Witness for C3: calling the never-registered component `ghost` from
the empty world; with the empty schedule the pending call is unsettled,
and draining the timeout rejects it with the timeout error. -/
theorem missing_target_times_out_witness :
    (getLog (runSteps (ComponentContext.call (World.init Nat) "ghost" "x" 0 1).1 [])
       (ComponentContext.call (World.init Nat) "ghost" "x" 0 1).2 = [] ∨
     (getLog (runSteps (ComponentContext.call (World.init Nat) "ghost" "x" 0 1).1 [])
        (ComponentContext.call (World.init Nat) "ghost" "x" 0 1).2
          = [SettleEvent.rejectedTimeout] ∧
      (World.init Nat).now + 1
        ≤ (runSteps (ComponentContext.call (World.init Nat) "ghost" "x" 0 1).1 []).now)) ∧
    getLog
      (runSteps (runSteps (ComponentContext.call (World.init Nat) "ghost" "x" 0 1).1 [])
        (drainSched (runSteps (ComponentContext.call (World.init Nat) "ghost" "x" 0 1).1 [])
          (ComponentContext.call (World.init Nat) "ghost" "x" 0 1).2))
      (ComponentContext.call (World.init Nat) "ghost" "x" 0 1).2
      = [SettleEvent.rejectedTimeout] :=
  missing_target_times_out (World.init Nat) "ghost" "x" 0 1 []
    (by
      refine ⟨?_, ?_, ?_, ?_, ?_⟩
      · intro x hx
        exact absurd hx (List.not_mem_nil x)
      · intro x hx
        exact absurd hx (List.not_mem_nil x)
      · intro x hx
        exact absurd hx (List.not_mem_nil x)
      · intro comp i v hmem
        exact absurd hmem (List.not_mem_nil _)
      · intro x hx
        exact absurd hx (List.not_mem_nil x))
    (by
      intro e he
      exact absurd he (List.not_mem_nil e))
    (by
      intro s hs
      exact absurd hs (List.not_mem_nil s))

/-- C4: when every handler the call frame can reach rejects, the failure
is absorbed at the responding boundary: no result frame carrying the
call's correlation id is ever broadcast, the caller's pending call is
never settled before the timeout expires, and once the timeout runs its
course the call is rejected with exactly the timeout error — the same
outcome as a missing or slow endpoint. -/
theorem rejecting_handler_times_out {V : Type} (st : World V) (comp ep : String) (p : V)
    (T : Nat) (sched : List (Step V)) (hF : FreshWorld st) (hRO : RejectsOnly st comp ep)
    (hB : ∀ s ∈ sched, Benign s) :
    (∀ fr ∈ (runSteps (ComponentContext.call st comp ep p T).1 sched).resultLog,
        fr.id ≠ (ComponentContext.call st comp ep p T).2) ∧
    (getLog (runSteps (ComponentContext.call st comp ep p T).1 sched)
       (ComponentContext.call st comp ep p T).2 = [] ∨
     (getLog (runSteps (ComponentContext.call st comp ep p T).1 sched)
        (ComponentContext.call st comp ep p T).2 = [SettleEvent.rejectedTimeout] ∧
      st.now + T ≤ (runSteps (ComponentContext.call st comp ep p T).1 sched).now)) ∧
    getLog
      (runSteps (runSteps (ComponentContext.call st comp ep p T).1 sched)
        (drainSched (runSteps (ComponentContext.call st comp ep p T).1 sched)
          (ComponentContext.call st comp ep p T).2))
      (ComponentContext.call st comp ep p T).2 = [SettleEvent.rejectedTimeout] := by
  have hInv := timeoutInv_runSteps _ _ sched hB _
    (timeoutInv_after_call_rejectsOnly st comp ep p T hF hRO)
  refine ⟨?_, ?_, ?_⟩
  · obtain ⟨_, _, _, h4, _⟩ := hInv
    exact h4
  · obtain ⟨_, _, _, _, h5⟩ := hInv
    rcases h5 with ⟨_, hb⟩ | ⟨_, hb, hc⟩
    · exact Or.inl hb
    · exact Or.inr ⟨hb, hc⟩
  · exact timeoutInv_drain _ _ _ hInv

/-- Witness for C4: a `svc` context whose endpoint `ep` rejects; the call
is never answered by a result frame and settles only via the timeout. -/
theorem rejecting_handler_times_out_witness :
    (∀ fr ∈ (runSteps (ComponentContext.call
        (ComponentContext.addEndpointOr (newContext (World.init Nat) "svc").1 0
          ⟨"ep", []⟩ HandlerSpec.rejects)
        "svc" "ep" 0 1).1 []).resultLog,
        fr.id ≠ (ComponentContext.call
          (ComponentContext.addEndpointOr (newContext (World.init Nat) "svc").1 0
            ⟨"ep", []⟩ HandlerSpec.rejects)
          "svc" "ep" 0 1).2) ∧
    (getLog (runSteps (ComponentContext.call
        (ComponentContext.addEndpointOr (newContext (World.init Nat) "svc").1 0
          ⟨"ep", []⟩ HandlerSpec.rejects)
        "svc" "ep" 0 1).1 [])
       (ComponentContext.call
          (ComponentContext.addEndpointOr (newContext (World.init Nat) "svc").1 0
            ⟨"ep", []⟩ HandlerSpec.rejects)
          "svc" "ep" 0 1).2 = [] ∨
     (getLog (runSteps (ComponentContext.call
          (ComponentContext.addEndpointOr (newContext (World.init Nat) "svc").1 0
            ⟨"ep", []⟩ HandlerSpec.rejects)
          "svc" "ep" 0 1).1 [])
        (ComponentContext.call
          (ComponentContext.addEndpointOr (newContext (World.init Nat) "svc").1 0
            ⟨"ep", []⟩ HandlerSpec.rejects)
          "svc" "ep" 0 1).2 = [SettleEvent.rejectedTimeout] ∧
      (ComponentContext.addEndpointOr (newContext (World.init Nat) "svc").1 0
          ⟨"ep", []⟩ HandlerSpec.rejects).now + 1
        ≤ (runSteps (ComponentContext.call
            (ComponentContext.addEndpointOr (newContext (World.init Nat) "svc").1 0
              ⟨"ep", []⟩ HandlerSpec.rejects)
            "svc" "ep" 0 1).1 []).now)) ∧
    getLog
      (runSteps (runSteps (ComponentContext.call
          (ComponentContext.addEndpointOr (newContext (World.init Nat) "svc").1 0
            ⟨"ep", []⟩ HandlerSpec.rejects)
          "svc" "ep" 0 1).1 [])
        (drainSched (runSteps (ComponentContext.call
            (ComponentContext.addEndpointOr (newContext (World.init Nat) "svc").1 0
              ⟨"ep", []⟩ HandlerSpec.rejects)
            "svc" "ep" 0 1).1 [])
          (ComponentContext.call
            (ComponentContext.addEndpointOr (newContext (World.init Nat) "svc").1 0
              ⟨"ep", []⟩ HandlerSpec.rejects)
            "svc" "ep" 0 1).2))
      (ComponentContext.call
        (ComponentContext.addEndpointOr (newContext (World.init Nat) "svc").1 0
          ⟨"ep", []⟩ HandlerSpec.rejects)
        "svc" "ep" 0 1).2 = [SettleEvent.rejectedTimeout] :=
  rejecting_handler_times_out
    (ComponentContext.addEndpointOr (newContext (World.init Nat) "svc").1 0
      ⟨"ep", []⟩ HandlerSpec.rejects)
    "svc" "ep" 0 1 []
    (by
      refine ⟨?_, ?_, ?_, ?_, ?_⟩
      · intro x hx
        exact absurd hx (List.not_mem_nil x)
      · intro x hx
        exact absurd hx (List.not_mem_nil x)
      · intro x hx
        exact absurd hx (List.not_mem_nil x)
      · intro comp i v hmem
        exact absurd hmem (List.not_mem_nil _)
      · intro x hx
        exact absurd hx (List.not_mem_nil x))
    (by
      intro e he _
      right
      rw [List.mem_singleton.mp he]
      exact ⟨⟨"ep", HandlerSpec.rejects⟩, rfl, rfl⟩)
    (by
      intro s hs
      exact absurd hs (List.not_mem_nil s))
